import Mathlib

/-!
Verification of the py2anki parsing pipeline (src/py2anki/parse/) against its
natural-language specification.

The Python sources are shallowly embedded: the AST node shapes relevant to the
parser (`ast.Call`, `ast.Attribute`, `ast.Name`, `ast.FunctionDef`,
`ast.ClassDef`, `ast.If`, `ast.Import`, `ast.ImportFrom`, ...) become an
inductive type, `ast.walk`'s breadth-first traversal becomes an executable
queue-based function, Python dicts become association lists with dict
semantics (insertion order kept, assignment replaces in place), and the
fallible reference-linking pass returns `Except`.  File I/O and `ast.parse`
are not modelled: parsing functions take the already-parsed module body, the
way the Python code receives it from `ast.parse`.  Relative-import path
arithmetic (`FileParser._resolve_relative_import`) is not exercised by any
verified property and is omitted; `visit_Import`/`visit_ImportFrom` are
modelled for absolute imports, which is the only form the properties touch.
-/

/-! ## Small Python-semantics utilities -/

/-- `str.startswith(pre)`: string prefix test, via the character lists so that
it reduces in the kernel. -/
def starts_with (s pre : String) : Bool := List.isPrefixOf pre.data s.data

/-- Lookup in a Python dict modelled as an insertion-ordered association list
(`d[k]` / `d.get(k)` / `k in d`). -/
def dict_get {α : Type} (m : List (String × α)) (k : String) : Option α :=
  match m with
  | [] => none
  | (k', v) :: rest => if k' = k then some v else dict_get rest k

/-- `d[k] = v` on a Python dict: replace in place if the key exists (keeping
its position, as CPython dicts do), otherwise append. -/
def dict_set {α : Type} (m : List (String × α)) (k : String) (v : α) : List (String × α) :=
  match m with
  | [] => [(k, v)]
  | (k', v') :: rest => if k' = k then (k, v) :: rest else (k', v') :: dict_set rest k v

/-- `ParsedCodeEntity.ensure_unique` (parsed_entities.py): the pydantic field
validator `list(dict.fromkeys(v))` - deduplicate keeping the first
occurrence. -/
def ensure_unique_aux (seen : List String) : List String → List String
  | [] => []
  | x :: xs => if x ∈ seen then ensure_unique_aux seen xs
               else x :: ensure_unique_aux (x :: seen) xs

def ensure_unique (v : List String) : List String := ensure_unique_aux [] v

/-- `list(set(xs))` as used for `self.file.dependencies` in
`FileParser.resolve_imports`.  CPython's set iteration order is
hash-dependent and unspecified; the model keeps the first occurrence of each
element, which is membership-faithful.  No verified property relies on the
order of a file's own dependency list. -/
def py_set_list (xs : List String) : List String := ensure_unique xs

/-! ## Parsed entities (parsed_entities.py)

`docstring` and `source_code` are carried by the Python entities but no
verified property mentions them, so they are omitted from the embedding.
`dependency_refs` values are `ParsedCodeEntity` objects in Python; the
embedding names the referenced entity instead of storing it. -/

inductive EntityRef where
  | file (path : String)
  | func (name : String)
  | cls (name : String)
deriving Repr, DecidableEq

structure ParsedFunction where
  name : String
  dependencies : List String
  dependency_refs : List (String × EntityRef)
deriving Repr, DecidableEq

structure ParsedClass where
  name : String
  dependencies : List String
  dependency_refs : List (String × EntityRef)
  methods : List ParsedFunction
  parent_classes : List String
deriving Repr, DecidableEq

structure ParsedFile where
  path : String
  dependencies : List String
  dependency_refs : List (String × EntityRef)
  functions : List ParsedFunction
  classes : List ParsedClass
deriving Repr, DecidableEq

/-! ## Python AST fragment

The node shapes the parser dispatches on, named after the `ast` classes.
`Constant` stands for any leaf expression the parser never reacts to.  A call
statement is an `Expr` statement wrapping a `Call`, as in the Python AST.
`Import`/`ImportFrom` carry `(name, asname?)` pairs like `ast.alias`. -/

inductive PyExpr where
  | Name (id : String)
  | Attribute (value : PyExpr) (attr : String)
  | Call (func : PyExpr) (args : List PyExpr)
  | Constant
deriving Repr

inductive PyStmt where
  | FunctionDef (name : String) (body : List PyStmt)
  | ClassDef (name : String) (bases : List PyExpr) (body : List PyStmt)
  | Expr (value : PyExpr)
  | If (test : PyExpr) (body : List PyStmt) (orelse : List PyStmt)
  | Return (value : Option PyExpr)
  | Assign (value : PyExpr)
  | Import (names : List (String × Option String))
  | ImportFrom (module : String) (names : List (String × Option String))
  | Pass
deriving Repr

/-- A node yielded by `ast.walk`: either a statement or an expression. -/
inductive PyNode where
  | stmt (s : PyStmt)
  | expr (e : PyExpr)
deriving Repr

/-- `ast.iter_child_nodes`, restricted to the child positions that can hold
statement/expression nodes the parser reacts to, in the field order of the
Python AST (`If`: test, body, orelse; `Call`: func, args; ...). -/
def children : PyNode → List PyNode
  | .stmt (.FunctionDef _ body) => body.map .stmt
  | .stmt (.ClassDef _ bases body) => bases.map .expr ++ body.map .stmt
  | .stmt (.Expr e) => [.expr e]
  | .stmt (.If t body orelse) => .expr t :: (body.map .stmt ++ orelse.map .stmt)
  | .stmt (.Return none) => []
  | .stmt (.Return (some e)) => [.expr e]
  | .stmt (.Assign e) => [.expr e]
  | .stmt (.Import _) => []
  | .stmt (.ImportFrom _ _) => []
  | .stmt .Pass => []
  | .expr (.Name _) => []
  | .expr (.Attribute v _) => [.expr v]
  | .expr (.Call f args) => .expr f :: args.map .expr
  | .expr .Constant => []

/-! Node counts, used as the exact fuel for the breadth-first walk: every node
of the subtree below the queue is popped exactly once. -/

mutual
def expr_count : PyExpr → Nat
  | .Name _ => 1
  | .Attribute v _ => 1 + expr_count v
  | .Call f args => 1 + expr_count f + expr_list_count args
  | .Constant => 1

def expr_list_count : List PyExpr → Nat
  | [] => 0
  | e :: es => expr_count e + expr_list_count es

def stmt_count : PyStmt → Nat
  | .FunctionDef _ body => 1 + stmt_list_count body
  | .ClassDef _ bases body => 1 + expr_list_count bases + stmt_list_count body
  | .Expr e => 1 + expr_count e
  | .If t body orelse => 1 + expr_count t + stmt_list_count body + stmt_list_count orelse
  | .Return none => 1
  | .Return (some e) => 1 + expr_count e
  | .Assign e => 1 + expr_count e
  | .Import _ => 1
  | .ImportFrom _ _ => 1
  | .Pass => 1

def stmt_list_count : List PyStmt → Nat
  | [] => 0
  | s :: ss => stmt_count s + stmt_list_count ss
end

def node_count : PyNode → Nat
  | .stmt s => stmt_count s
  | .expr e => expr_count e

def nodes_count (q : List PyNode) : Nat := (q.map node_count).sum

/-- `ast.walk(node)`: breadth-first traversal with a FIFO queue; yields each
node, then pushes its children at the back of the queue.  The fuel
`nodes_count q` is exactly the number of nodes that will ever be popped, so
`walk` below runs the queue to exhaustion (`walk_cons` is the defining
recurrence, independent of the fuel bookkeeping). -/
def walk_fuel : Nat → List PyNode → List PyNode
  | _, [] => []
  | 0, _ :: _ => []
  | fuel + 1, n :: rest => n :: walk_fuel fuel (rest ++ children n)

def walk (q : List PyNode) : List PyNode := walk_fuel (nodes_count q) q



/-! ## FileParser (parse.py)

`FileParser._get_attribute_string` is defined twice in the Python class body;
the second definition (lines 113-118), with the `"<unknown>"` fallback for
unsupported expression shapes, shadows the first (lines 83-88), so only the
fallback version is live and only it is modelled. -/

def get_attribute_string : PyExpr → String
  | .Name id => id
  | .Attribute value attr => get_attribute_string value ++ "." ++ attr
  | _ => "<unknown>"

/-- The dependency-collection loop of `FileParser.parse_function` (lines
97-106): iterate over `ast.walk(node)` in order, accumulate the names of
`FunctionDef` nodes as `local_functions`, and for every `Call` node append
`child.func.id` when `func` is a `Name` not in `local_functions`
(`hasattr(child.func, "id")` holds exactly for `Name`), or the rendered
attribute string when `func` is an `Attribute`. -/
def walk_dependencies : List PyNode → List String → List String
  | [], _ => []
  | .stmt (.FunctionDef n _) :: rest, local_functions =>
      walk_dependencies rest (n :: local_functions)
  | .expr (.Call f _) :: rest, local_functions =>
      match f with
      | .Name id =>
          if id ∈ local_functions then walk_dependencies rest local_functions
          else id :: walk_dependencies rest local_functions
      | .Attribute v a =>
          get_attribute_string (.Attribute v a) :: walk_dependencies rest local_functions
      | _ => walk_dependencies rest local_functions
  | _ :: rest, local_functions => walk_dependencies rest local_functions

/-- `FileParser.parse_function`: the `ParsedFunction` is constructed with an
empty dependency list (so the pydantic `ensure_unique` validator sees only
the default `[]`) and dependencies are then appended while walking, bypassing
validation - the collected list is stored as-is. -/
def parse_function (name : String) (body : List PyStmt) : ParsedFunction :=
  { name := name
    dependencies := walk_dependencies (walk [.stmt (.FunctionDef name body)]) []
    dependency_refs := [] }

/-- `FileParser.visit_ClassDef`: collect only the class body's directly
nested `FunctionDef`s as methods; unpack method dependencies, dropping those
that start with `"self."`; render `Name` and `Attribute` bases, silently
skipping any other base shape; append parent classes to the dependencies;
construct the `ParsedClass` (whose `dependencies=` keyword argument runs the
`ensure_unique` pydantic validator). -/
def visit_ClassDef_entity (name : String) (bases : List PyExpr) (body : List PyStmt) :
    ParsedClass :=
  let methods := body.filterMap (fun child =>
    match child with
    | .FunctionDef n b => some (parse_function n b)
    | _ => none)
  let dependencies := methods.foldl (fun acc method =>
    acc ++ method.dependencies.filter (fun x => !(starts_with x "self."))) []
  let parent_classes := bases.filterMap (fun base =>
    match base with
    | .Name id => some id
    | .Attribute v a => some (get_attribute_string (.Attribute v a))
    | _ => none)
  { name := name
    dependencies := ensure_unique (dependencies ++ parent_classes)
    dependency_refs := []
    methods := methods
    parent_classes := parent_classes }

/-- The parser state of `FileParser.__init__` (path and project root are only
used for file I/O and relative imports, which are not modelled). -/
structure FileParser where
  file : ParsedFile
  imports : List String
  aliases : List (String × String)
  package_name : String
deriving Repr, DecidableEq

/-- `FileParser.visit_Import` for absolute imports (`ast.Import` nodes never
carry a `level` attribute, so the relative branch is dead there): append each
dotted name to `imports` and record `asname -> name` when an alias is
bound. -/
def visit_Import (p : FileParser) (names : List (String × Option String)) : FileParser :=
  names.foldl (fun p al =>
    let p := { p with imports := p.imports ++ [al.1] }
    match al.2 with
    | some asname => { p with aliases := dict_set p.aliases asname al.1 }
    | none => p) p

/-- `FileParser.visit_ImportFrom` for absolute imports: record
`{prefix}.{name}` as an import target, and bind either `asname` or the bare
`name` as an alias for it. -/
def visit_ImportFrom (p : FileParser) (module : String)
    (names : List (String × Option String)) : FileParser :=
  names.foldl (fun p al =>
    let target := module ++ "." ++ al.1
    let p := { p with imports := p.imports ++ [target] }
    match al.2 with
    | some asname => { p with aliases := dict_set p.aliases asname target }
    | none => { p with aliases := dict_set p.aliases al.1 target }) p

/-! `ast.NodeVisitor.visit` dispatch: `visit_FunctionDef`, `visit_ClassDef`,
`visit_Import` and `visit_ImportFrom` are defined and do NOT call
`generic_visit`, so they never recurse into their node's body; every other
statement falls back to `generic_visit`, which visits all child nodes (for
`If`, the body and orelse statements).  Expression nodes have no visitor
methods, so they contribute nothing. -/

mutual
def visit (p : FileParser) : PyStmt → FileParser
  | .FunctionDef name body =>
      { p with file := { p.file with
          functions := p.file.functions ++ [parse_function name body] } }
  | .ClassDef name bases body =>
      { p with file := { p.file with
          classes := p.file.classes ++ [visit_ClassDef_entity name bases body] } }
  | .Import names => visit_Import p names
  | .ImportFrom module names => visit_ImportFrom p module names
  | .If _ body orelse => visit_list (visit_list p body) orelse
  | .Expr _ => p
  | .Return _ => p
  | .Assign _ => p
  | .Pass => p

def visit_list (p : FileParser) : List PyStmt → FileParser
  | [] => p
  | s :: rest => visit_list (visit p s) rest
end

/-- `FileParser.resolve_imports`: restrict imports and aliases to the
package, substitute each function/class dependency through the file's local
alias map, filter dependencies to import targets and locally defined
function/class names, and recompute the file's own dependencies as
`list(set(...))` of the survivors.  All these list mutations are plain
attribute/index assignments in Python, so the pydantic `ensure_unique`
validator does not run on them. -/
def resolve_imports (p : FileParser) : FileParser :=
  let imports := p.imports.filter (fun x => starts_with x p.package_name)
  let aliases := p.aliases.filter (fun kv => starts_with kv.2 p.package_name)
  let substitute := fun (deps : List String) =>
    deps.map (fun import_str => (dict_get aliases import_str).getD import_str)
  let functions := p.file.functions.map (fun f =>
    { f with dependencies := substitute f.dependencies })
  let classes := p.file.classes.map (fun c =>
    { c with dependencies := substitute c.dependencies })
  let defined_functions := functions.map (fun f => f.name)
  let defined_classes := classes.map (fun c => c.name)
  let filter_fn := fun (x : String) =>
    imports.contains x || defined_functions.contains x || defined_classes.contains x
  let functions := functions.map (fun f =>
    { f with dependencies := f.dependencies.filter filter_fn })
  let classes := classes.map (fun c =>
    { c with dependencies := c.dependencies.filter filter_fn })
  let all_dependencies :=
    functions.foldl (fun acc f => acc ++ f.dependencies) [] ++
      classes.foldl (fun acc c => acc ++ c.dependencies) []
  { p with
    imports := imports
    aliases := aliases
    file := { p.file with
      functions := functions
      classes := classes
      dependencies := py_set_list all_dependencies } }

/-- `parse_file`: build the parser, visit the module body, resolve imports,
return the file. -/
def file_parser_init (path package_name : String) : FileParser :=
  { file := { path := path, dependencies := [], dependency_refs := []
              functions := [], classes := [] }
    imports := []
    aliases := []
    package_name := package_name }

def parse_file (path : String) (module_body : List PyStmt) (package_name : String) :
    ParsedFile :=
  (resolve_imports (visit_list (file_parser_init path package_name) module_body)).file

/-! ## Project-wide passes (ParsedProject, parse.py lines 343-375) -/

/-- The inner `resolve_aliases` of `ParsedProject._resolve_file_aliases`:
`[self.aliases.get(d, d) for d in deps]`. -/
def resolve_aliases (aliases : List (String × String)) (deps : List String) : List String :=
  deps.map (fun d => (dict_get aliases d).getD d)

/-- `ParsedProject._resolve_file_aliases`: rewrite every function, class and
file dependency through the project's global alias map (plain attribute
assignments, so no pydantic validation re-runs). -/
def resolve_file_aliases (aliases : List (String × String)) (file : ParsedFile) : ParsedFile :=
  { file with
    functions := file.functions.map (fun f =>
      { f with dependencies := resolve_aliases aliases f.dependencies })
    classes := file.classes.map (fun c =>
      { c with dependencies := resolve_aliases aliases c.dependencies })
    dependencies := resolve_aliases aliases file.dependencies }

/-- The inner `resolve_refs` of `ParsedProject._resolve_file_references`:
`{d: self.references[d] for d in deps}` - a missing key raises `KeyError(d)`,
modelled as `Except.error d`. -/
def resolve_refs (references : List (String × EntityRef)) :
    List String → Except String (List (String × EntityRef))
  | [] => .ok []
  | d :: ds =>
    match dict_get references d with
    | none => .error d
    | some e => (resolve_refs references ds).map (fun rest => (d, e) :: rest)

/-- Attach reference maps to every function of the list, stopping at the
first missing key (the `KeyError` propagates out of
`_resolve_file_references`). -/
def resolve_function_refs (references : List (String × EntityRef)) :
    List ParsedFunction → Except String (List ParsedFunction)
  | [] => .ok []
  | f :: fs =>
    match resolve_refs references f.dependencies with
    | .error e => .error e
    | .ok r => (resolve_function_refs references fs).map
        (fun rest => { f with dependency_refs := r } :: rest)

def resolve_class_refs (references : List (String × EntityRef)) :
    List ParsedClass → Except String (List ParsedClass)
  | [] => .ok []
  | c :: cs =>
    match resolve_refs references c.dependencies with
    | .error e => .error e
    | .ok r => (resolve_class_refs references cs).map
        (fun rest => { c with dependency_refs := r } :: rest)

/-- `ParsedProject._resolve_file_references`: look every remaining dependency
string up in the project-wide reference index and attach the owning entity;
an uncaught `KeyError` surfaces to the caller on any missing key. -/
def resolve_file_references (references : List (String × EntityRef)) (file : ParsedFile) :
    Except String ParsedFile :=
  match resolve_function_refs references file.functions with
  | .error e => .error e
  | .ok functions =>
    match resolve_class_refs references file.classes with
    | .error e => .error e
    | .ok classes =>
      match resolve_refs references file.dependencies with
      | .error e => .error e
      | .ok file_refs =>
        .ok { file with
          functions := functions
          classes := classes
          dependency_refs := file_refs }

/-- `ParsedFolder` (parsed_entities.py): an owned tree of files. -/
inductive ParsedFolder where
  | mk (path : String) (files : List ParsedFile) (subfolders : List ParsedFolder)
deriving Repr

def ParsedFolder.files : ParsedFolder → List ParsedFile
  | .mk _ fs _ => fs

def ParsedFolder.subfolders : ParsedFolder → List ParsedFolder
  | .mk _ _ sub => sub

/-! `ParsedProject.resolve_project_aliases_and_references` walks the folder
tree breadth-first applying `_resolve_file_aliases` to every file, then walks
it again applying `_resolve_file_references`.  Both passes act on each file
independently, so the breadth-first queue produces the same tree as the
structural traversal used here (for the reference pass, which `KeyError`
surfaces first may differ, but whether one surfaces does not). -/

mutual
def folder_map_files (fn : ParsedFile → ParsedFile) : ParsedFolder → ParsedFolder
  | .mk path files subfolders =>
      .mk path (files.map fn) (folder_map_files_list fn subfolders)

def folder_map_files_list (fn : ParsedFile → ParsedFile) :
    List ParsedFolder → List ParsedFolder
  | [] => []
  | f :: fs => folder_map_files fn f :: folder_map_files_list fn fs
end

mutual
def folder_resolve_references (references : List (String × EntityRef)) :
    ParsedFolder → Except String ParsedFolder
  | .mk path files subfolders =>
    match files.mapM (resolve_file_references references) with
    | .error e => .error e
    | .ok fs =>
      match folder_resolve_references_list references subfolders with
      | .error e => .error e
      | .ok subs => .ok (.mk path fs subs)

def folder_resolve_references_list (references : List (String × EntityRef)) :
    List ParsedFolder → Except String (List ParsedFolder)
  | [] => .ok []
  | f :: fs =>
    match folder_resolve_references references f with
    | .error e => .error e
    | .ok f' => (folder_resolve_references_list references fs).map (fun rest => f' :: rest)
end

/-- `ParsedProject.resolve_project_aliases_and_references`: the alias pass
over every file, then the reference pass. -/
def resolve_project_aliases_and_references (aliases : List (String × String))
    (references : List (String × EntityRef)) (root_folder : ParsedFolder) :
    Except String ParsedFolder :=
  folder_resolve_references references (folder_map_files (resolve_file_aliases aliases) root_folder)

/-! ## Reflective re-export loader (`ParsedProject.parse_init`,
`execute_and_capture`, and `ManagedModules` from utils.py)

The filesystem package tree is abstracted as `PkgNode`: `dirname` is the
directory's name, `has_init` whether it contains an `__init__.py`, `raises`
whether executing that initializer raises, and `exports` the entries of the
executed module's `__all__` - for each exported name, `none` models a name
whose `getattr` lookup yields nothing live, `some none` an object without a
`__module__` attribute, and `some (some m)` an object whose `__module__` is
`m`.  The module spec is assumed well-formed (`spec and spec.loader`).
`sys.modules` is abstracted to the list of registered module names and
`sys.path` to a list of path strings.  `modules_at_entry` is ghost
instrumentation recording, for each initializer execution, the registry as
observed when that execution begins. -/

inductive PkgNode where
  | mk (dirname : String) (has_init : Bool) (raises : Bool)
       (exports : List (String × Option (Option String)))
       (subdirs : List PkgNode)
deriving Repr

def PkgNode.dirname : PkgNode → String
  | .mk d _ _ _ _ => d

def PkgNode.has_init : PkgNode → Bool
  | .mk _ h _ _ _ => h

def PkgNode.raises : PkgNode → Bool
  | .mk _ _ r _ _ => r

def PkgNode.exports : PkgNode → List (String × Option (Option String))
  | .mk _ _ _ e _ => e

def PkgNode.subdirs : PkgNode → List PkgNode
  | .mk _ _ _ _ s => s

structure SysState where
  modules : List String
  path : List String
deriving Repr, DecidableEq

structure LoaderState where
  sys : SysState
  aliases : List (String × String)
  log : List String
  executed : List String
  modules_at_entry : List (String × List String)
deriving Repr, DecidableEq

/-- `sys.modules[current_pkg] = module`: register a module name (dict-key
semantics: re-assignment of a present key leaves the key set unchanged). -/
def modules_set (modules : List String) (pkg : String) : List String :=
  if pkg ∈ modules then modules else modules ++ [pkg]

/-- `ParsedProject.execute_and_capture`: record the ghost entry snapshot,
register the module under its package name, execute it (an exception
propagates as `.error`, keeping the state mutated so far), then fold over
`__all__` capturing `"{pkg}.{name}" -> "{__module__}.{name}"` aliases and
logging warnings for names that do not resolve.  `_pkg_from_path(path)`
equals the dotted package name the queue built, so the alias key uses it
directly. -/
def capture_export (current_pkg : String) (st : LoaderState)
    (nm : String × Option (Option String)) : LoaderState :=
  match nm with
  | (name, some (some module_name)) =>
      let short_path := current_pkg ++ "." ++ name
      let full_path := module_name ++ "." ++ name
      { st with aliases := dict_set st.aliases short_path full_path }
  | (name, some none) =>
      { st with log := st.log ++
          ["Warning: " ++ name ++ " in " ++ current_pkg ++ " has no __module__ attribute"] }
  | (name, none) =>
      { st with log := st.log ++
          ["Warning: " ++ name ++ " in " ++ current_pkg ++ " is not a valid module"] }

def execute_and_capture (st : LoaderState) (current_pkg : String) (raises : Bool)
    (exports : List (String × Option (Option String))) : Except LoaderState LoaderState :=
  let st := { st with
    modules_at_entry := st.modules_at_entry ++ [(current_pkg, st.sys.modules)]
    executed := st.executed ++ [current_pkg] }
  let st := { st with sys := { st.sys with modules := modules_set st.sys.modules current_pkg } }
  if raises then .error st
  else .ok (exports.foldl (capture_export current_pkg) st)

mutual
def pkg_count : PkgNode → Nat
  | .mk _ _ _ _ subdirs => 1 + pkg_count_list subdirs

def pkg_count_list : List PkgNode → Nat
  | [] => 0
  | n :: ns => pkg_count n + pkg_count_list ns
end

/-- The `while queue:` loop of `ParsedProject.parse_init`.  A package without
an initializer file does not enqueue its subfolders (the `os.listdir` block
sits inside the `os.path.exists(init_path)` branch).  When an execution
raises, the exception propagates out of the loop to the `except` clause of
`parse_init`, which logs one warning naming the package and returns - the
remaining queue is abandoned.  The fuel (one unit per node of the tree) is an
upper bound on the number of iterations, since every tree node is enqueued at
most once. -/
def run_queue : Nat → List (String × PkgNode) → LoaderState → LoaderState
  | _, [], st => st
  | 0, _ :: _, st => st
  | fuel + 1, (current_pkg, node) :: rest, st =>
    if node.has_init then
      match execute_and_capture st current_pkg node.raises node.exports with
      | .error st' =>
          { st' with log := st'.log ++ ["Warning: Failed to execute " ++ current_pkg] }
      | .ok st' =>
          run_queue fuel
            (rest ++ node.subdirs.map (fun sub => (current_pkg ++ "." ++ sub.dirname, sub)))
            st'
    else run_queue fuel rest st

/-- `ParsedProject.parse_init` (body inside the `@ManagedModules()`
decorator): insert the project root at the front of `sys.path`, then run the
breadth-first queue starting from the root package; any exception from an
initializer is caught here and logged, never propagated. -/
def parse_init (package_name project_root : String) (root : PkgNode)
    (st : LoaderState) : LoaderState :=
  let st := { st with sys := { st.sys with path := project_root :: st.sys.path } }
  run_queue (pkg_count root) [(package_name, root)] st

/-- `ManagedModules` (utils.py): `__enter__` snapshots `sys.modules` and
`sys.path`; `__exit__` restores both unconditionally, on every exit path. -/
def managed_modules (body : LoaderState → LoaderState) (st : LoaderState) : LoaderState :=
  let original_modules := st.sys.modules
  let original_path := st.sys.path
  let st' := body st
  { st' with sys := { modules := original_modules, path := original_path } }

/-- `parse_init` as actually invoked: decorated with `@ManagedModules()`. -/
def managed_parse_init (package_name project_root : String) (root : PkgNode)
    (st : LoaderState) : LoaderState :=
  managed_modules (parse_init package_name project_root root) st

/-! ## Auxiliary predicates and spec-side renderings used by the verified
properties -/

/-- The base-class shapes `visit_ClassDef` renders (`ast.Name` or
`ast.Attribute`); any other shape falls through both branches of its
`if`/`elif`. -/
def is_name_or_attr : PyExpr → Bool
  | .Name _ => true
  | .Attribute _ _ => true
  | _ => false

/-- Rendering of base-class expressions as the specification words it: a
`Name` renders to its identifier, an `Attribute` chain to its dotted string,
and any unsupported shape to the `"<unknown>"` sentinel (instead of being
omitted). -/
def claimed_parent_classes (bases : List PyExpr) : List String :=
  bases.map (fun base =>
    match base with
    | .Name id => id
    | .Attribute v a => get_attribute_string (.Attribute v a)
    | _ => "<unknown>")

/-- The rewrite-then-filter pipeline as the specification words it: each raw
dependency is substituted with the Loader's global alias when present, else
the file's local import alias when present, else left unchanged; only then
are strings dropped that are neither import targets nor locally defined
function/class names. -/
def claimed_rewrite_filter (global_aliases local_aliases : List (String × String))
    (imports defined_functions defined_classes : List String)
    (deps : List String) : List String :=
  (deps.map (fun d =>
    match dict_get global_aliases d with
    | some v => v
    | none =>
      match dict_get local_aliases d with
      | some v => v
      | none => d)).filter (fun x =>
    imports.contains x || defined_functions.contains x || defined_classes.contains x)

/-- The per-dependency-list transformation the code actually performs across
`FileParser.resolve_imports` and `ParsedProject._resolve_file_aliases`:
substitute through the file's local alias map, filter against import targets
and locally defined names, and only then substitute the survivors through the
Loader's global alias map. -/
def local_filter_global (global_aliases local_aliases : List (String × String))
    (imports defined_functions defined_classes : List String)
    (deps : List String) : List String :=
  ((deps.map (fun d => (dict_get local_aliases d).getD d)).filter (fun x =>
    imports.contains x || defined_functions.contains x || defined_classes.contains x)).map
    (fun d => (dict_get global_aliases d).getD d)

/-- Names of the function definitions that are direct (top-level) statements
of a body. -/
def direct_def_names (body : List PyStmt) : List String :=
  body.filterMap (fun s =>
    match s with
    | .FunctionDef n _ => some n
    | _ => none)

/-! Call-freeness: a subtree with no `Call` node anywhere.  Only `Call`
nodes can emit a dependency in `parse_function`'s walk, so call-free
subtrees are inert wherever they sit in the queue. -/

mutual
def expr_call_free : PyExpr → Bool
  | .Name _ => true
  | .Attribute v _ => expr_call_free v
  | .Call _ _ => false
  | .Constant => true

def expr_list_call_free : List PyExpr → Bool
  | [] => true
  | e :: es => expr_call_free e && expr_list_call_free es

def stmt_call_free : PyStmt → Bool
  | .FunctionDef _ body => stmt_list_call_free body
  | .ClassDef _ bases body => expr_list_call_free bases && stmt_list_call_free body
  | .Expr e => expr_call_free e
  | .If t body orelse =>
      expr_call_free t && (stmt_list_call_free body && stmt_list_call_free orelse)
  | .Return none => true
  | .Return (some e) => expr_call_free e
  | .Assign e => expr_call_free e
  | .Import _ => true
  | .ImportFrom _ _ => true
  | .Pass => true

def stmt_list_call_free : List PyStmt → Bool
  | [] => true
  | st :: ss => stmt_call_free st && stmt_list_call_free ss
end

def node_call_free : PyNode → Bool
  | .stmt s => stmt_call_free s
  | .expr e => expr_call_free e

/-- A node that can never emit a dependency once every name of `L` is in
`local_functions`: either its whole subtree is call-free, or it is a bare
call to a name of `L` with call-free arguments. -/
def good_node (L : List String) (n : PyNode) : Prop :=
  node_call_free n = true
  ∨ ∃ c args, n = .expr (.Call (.Name c) args) ∧ c ∈ L ∧ expr_list_call_free args = true

/-- Body shape of the amended shadowing claim: every direct statement is
either entirely call-free (local function definitions with call-free bodies,
returns, assignments, `pass`, ...) or a direct call statement targeting, by
bare name, a function defined by a direct statement of the body, with
call-free arguments.  All direct definitions then sit at queue depth 1 of
the breadth-first walk while every call node sits at depth 2 or below, so
each definition is recorded in `local_functions` before any call is
inspected - wherever in the body the definitions and the calls appear. -/
def direct_shadowed_stmt (defs : List String) : PyStmt → Bool
  | .Expr (.Call (.Name c) args) => defs.contains c && expr_list_call_free args
  | s => stmt_call_free s

/-- Recognizer for a call-through-the-instance node: a `Call` whose `func`
is the attribute access `self.<a>`. -/
def has_self_call (a : String) : PyNode → Bool
  | .expr (.Call (.Attribute (.Name id) a') _) => id == "self" && a' == a
  | _ => false

/-- The `local_functions` accumulator of `parse_function` after a node list
has been traversed. -/
def locals_after : List PyNode → List String → List String
  | [], local_functions => local_functions
  | .stmt (.FunctionDef n _) :: rest, local_functions => locals_after rest (n :: local_functions)
  | _ :: rest, local_functions => locals_after rest local_functions

/-- One breadth-first level of children. -/
def children_of_list (q : List PyNode) : List PyNode := (q.map children).flatten

/-- The function definitions (name and body, in visit order) that the
`NodeVisitor` dispatch registers on `file.functions`: direct statements and
statements inside `If` bodies are reached by `generic_visit`; bodies of
`FunctionDef` and `ClassDef` are not, because their visitors do not call
`generic_visit`. -/
def registered_function_defs : List PyStmt → List (String × List PyStmt)
  | [] => []
  | .FunctionDef n b :: rest => (n, b) :: registered_function_defs rest
  | .If _ b o :: rest =>
      registered_function_defs b ++ (registered_function_defs o ++ registered_function_defs rest)
  | _ :: rest => registered_function_defs rest

/-- The class definitions the `NodeVisitor` dispatch registers on
`file.classes`. -/
def registered_class_defs : List PyStmt → List (String × List PyExpr × List PyStmt)
  | [] => []
  | .ClassDef n bs b :: rest => (n, bs, b) :: registered_class_defs rest
  | .If _ b o :: rest =>
      registered_class_defs b ++ (registered_class_defs o ++ registered_class_defs rest)
  | _ :: rest => registered_class_defs rest

/-! ## Concrete programs used as inputs of witnesses and counterexamples -/

/-- `from pkg.a import f` followed by a function whose body calls `f()`. -/
def c1_module : List PyStmt :=
  [.ImportFrom "pkg.a" [("f", none)],
   .FunctionDef "g" [.Expr (.Call (.Name "f") [])]]

/-- A Loader alias map recording that `pkg/a/__init__.py` re-exports `f`,
which is actually defined in module `pkg.b`. -/
def c1_global_aliases : List (String × String) := [("pkg.a.f", "pkg.b.f")]

/-- The parser state of `c1_module` right after the visit pass (what
`parse_file` feeds to `resolve_imports`). -/
def c1_visited : FileParser := visit_list (file_parser_init "pkg/m.py" "pkg") c1_module

/-- The file of `c1_module` after the full pipeline: per-file rewrite-and-
filter, then the global alias pass. -/
def c1_resolved : ParsedFile :=
  resolve_file_aliases c1_global_aliases (parse_file "pkg/m.py" c1_module "pkg")

/-- Re-running the per-file rewrite-and-filter step and the global alias pass
over the already-resolved file (the parser state keeps its filtered imports
and aliases, as in `FileParser`). -/
def c8_rerun : ParsedFile :=
  resolve_file_aliases c1_global_aliases
    (resolve_imports { resolve_imports c1_visited with file := c1_resolved }).file

/-- `def g(): pass` and `def f(): g(); g()` - the same sibling called
twice. -/
def c2_module : List PyStmt :=
  [.FunctionDef "g" [.Pass],
   .FunctionDef "f" [.Expr (.Call (.Name "g") []), .Expr (.Call (.Name "g") [])]]

/-- A function body whose only call targets `g`, which the body itself
defines - but nested one level deeper (inside an `if` block) than the call
statement, so the breadth-first walk reaches the call first. -/
def c9_body : List PyStmt :=
  [.Expr (.Call (.Name "g") []),
   .If .Constant [.FunctionDef "g" [.Pass]] []]

/-- Same shadowing with call and definition both direct statements of the
body: the definition sits one breadth-first level above the call node. -/
def c9_body_direct : List PyStmt :=
  [.Expr (.Call (.Name "g") []),
   .FunctionDef "g" [.Pass]]

/-- A body exercising the amended shadowing claim in general form: a call
with an argument placed before the definition it targets, a local definition
whose body is `return 1`-like (call-free but not `pass`), and a trailing
`return` statement. -/
def c9_general_body : List PyStmt :=
  [.Expr (.Call (.Name "g") [.Constant]),
   .FunctionDef "g" [.Return (some .Constant)],
   .Return (some .Constant)]

/-- A module whose only function definition sits inside a top-level `if`
block - not a module-top-level statement. -/
def c10_module : List PyStmt :=
  [.If .Constant [.FunctionDef "g" [.Pass]] []]

/-- The body of the mock `ExampleClass.internal_dependency`: a call through
the instance. -/
def internal_dependency_body : List PyStmt :=
  [.Return (some (.Call (.Attribute (.Name "self") "method_with_dependency") []))]

/-- The body of the mock `ExampleClass`: one method calling an external
function and one method calling through the instance. -/
def example_class_body : List PyStmt :=
  [.FunctionDef "method_with_dependency" [.Return (some (.Call (.Name "base_function") []))],
   .FunctionDef "internal_dependency" internal_dependency_body]

/-- A module defining `base_function` and `ExampleClass`, as in the mock
test file. -/
def c5_module : List PyStmt :=
  [.FunctionDef "base_function" [.Return (some .Constant)],
   .ClassDef "ExampleClass" [] example_class_body]

def c5_visited : FileParser := visit_list (file_parser_init "pkg/d.py" "pkg") c5_module

/-- A reference index knowing only `pkg.m.known`. -/
def c6_references : List (String × EntityRef) := [("pkg.m.known", .func "known")]

/-- A file carrying one function with a dependency missing from
`c6_references`. -/
def c6_file : ParsedFile :=
  { path := "pkg/m.py", dependencies := ["pkg.m.known"], dependency_refs := []
    functions := [{ name := "f", dependencies := ["pkg.m.missing"], dependency_refs := [] }]
    classes := [] }

/-- A file whose only dependency is present in `c6_references`. -/
def c6_file_ok : ParsedFile :=
  { path := "pkg/m.py", dependencies := ["pkg.m.known"], dependency_refs := []
    functions := [{ name := "f", dependencies := ["pkg.m.known"], dependency_refs := [] }]
    classes := [] }

/-- A file for exercising alias idempotence, with an alias map whose values
are fixed points (as Loader-produced maps are: values are canonical
defining-module paths). -/
def c8_fixed_aliases : List (String × String) := [("pkg.a.f", "pkg.b.f")]

def c8_file : ParsedFile :=
  { path := "pkg/m.py", dependencies := ["pkg.a.f"], dependency_refs := []
    functions := [{ name := "g", dependencies := ["pkg.a.f"], dependency_refs := [] }]
    classes := [] }

/-- The initial interpreter state: empty registry, empty search path, no
captured aliases. -/
def loader_state0 : LoaderState := ⟨⟨[], []⟩, [], [], [], []⟩

/-- Package tree `a` with two subpackages: `a/b/__init__.py` raises when
executed, `a/c/__init__.py` is healthy and re-exports `y` (defined in module
`a.k`). -/
def c3_tree : PkgNode :=
  .mk "a" true false []
    [.mk "b" true true [] [],
     .mk "c" true false [("y", some (some "a.k"))] []]

/-- The same tree with `a/b/__init__.py` healthy. -/
def c3_tree_healthy : PkgNode :=
  .mk "a" true false []
    [.mk "b" true false [] [],
     .mk "c" true false [("y", some (some "a.k"))] []]

/-- Root package `a` with one subpackage `a/b`, both with healthy
initializers. -/
def c4_tree : PkgNode := .mk "a" true false [] [.mk "b" true false [] []]

/-- The expected output of linking `c6_file_ok` against `c6_references`. -/
def c6_file_ok_resolved : ParsedFile :=
  { path := "pkg/m.py", dependencies := ["pkg.m.known"]
    dependency_refs := [("pkg.m.known", .func "known")]
    functions := [{ name := "f", dependencies := ["pkg.m.known"]
                    dependency_refs := [("pkg.m.known", .func "known")] }]
    classes := [] }

/-! # Proofs -/

/-! Basic facts about the walk. -/

theorem nodes_count_nil : nodes_count [] = 0 := rfl

theorem nodes_count_cons (n : PyNode) (q : List PyNode) :
    nodes_count (n :: q) = node_count n + nodes_count q := by
  simp [nodes_count]

theorem nodes_count_append (xs ys : List PyNode) :
    nodes_count (xs ++ ys) = nodes_count xs + nodes_count ys := by
  simp [nodes_count]

theorem node_count_pos (n : PyNode) : 1 ≤ node_count n := by
  cases n with
  | stmt s =>
    cases s with
    | Return v => cases v <;> (simp only [node_count, stmt_count]; omega)
    | _ => simp only [node_count, stmt_count]; omega
  | expr e => cases e <;> simp only [node_count, expr_count] <;> omega

theorem stmt_list_count_eq (ss : List PyStmt) :
    stmt_list_count ss = nodes_count (ss.map .stmt) := by
  induction ss with
  | nil => simp [stmt_list_count, nodes_count]
  | cons s rest ih =>
    simp only [stmt_list_count, List.map_cons, nodes_count_cons, node_count, ih]

theorem expr_list_count_eq (es : List PyExpr) :
    expr_list_count es = nodes_count (es.map .expr) := by
  induction es with
  | nil => simp [expr_list_count, nodes_count]
  | cons e rest ih =>
    simp only [expr_list_count, List.map_cons, nodes_count_cons, node_count, ih]

/-- Popping a node consumes one unit of fuel and adds strictly fewer than
`node_count n` nodes' worth of children to the queue. -/
theorem children_count_lt (n : PyNode) : nodes_count (children n) + 1 ≤ node_count n := by
  cases n with
  | stmt s =>
    cases s with
    | FunctionDef name body =>
      simp only [children, node_count, stmt_count, ← stmt_list_count_eq]; omega
    | ClassDef name bases body =>
      simp only [children, node_count, stmt_count, nodes_count_append,
        ← stmt_list_count_eq, ← expr_list_count_eq]; omega
    | Expr e =>
      simp only [children, node_count, stmt_count, nodes_count_cons,
        nodes_count_nil]; omega
    | If t body orelse =>
      simp only [children, node_count, stmt_count, nodes_count_cons,
        nodes_count_append, ← stmt_list_count_eq]; omega
    | Return v =>
      cases v <;>
        simp only [children, node_count, stmt_count, nodes_count_cons,
          nodes_count_nil] <;> omega
    | Assign e =>
      simp only [children, node_count, stmt_count, nodes_count_cons,
        nodes_count_nil]; omega
    | Import names => simp only [children, node_count, stmt_count, nodes_count_nil]; omega
    | ImportFrom m names => simp only [children, node_count, stmt_count, nodes_count_nil]; omega
    | Pass => simp only [children, node_count, stmt_count, nodes_count_nil]; omega
  | expr e =>
    cases e with
    | Name _ => simp only [children, node_count, expr_count, nodes_count_nil]; omega
    | Attribute v a =>
      simp only [children, node_count, expr_count, nodes_count_cons,
        nodes_count_nil]; omega
    | Call f args =>
      simp only [children, node_count, expr_count, nodes_count_cons,
        ← expr_list_count_eq]; omega
    | Constant => simp only [children, node_count, expr_count, nodes_count_nil]; omega

/-- The walk does not depend on the fuel once the fuel covers the queue. -/
theorem walk_fuel_eq (fuel₁ fuel₂ : Nat) (q : List PyNode)
    (h₁ : nodes_count q ≤ fuel₁) (h₂ : nodes_count q ≤ fuel₂) :
    walk_fuel fuel₁ q = walk_fuel fuel₂ q := by
  induction fuel₁ generalizing fuel₂ q with
  | zero =>
    cases q with
    | nil => cases fuel₂ <;> simp [walk_fuel]
    | cons n rest =>
      exfalso
      have := node_count_pos n
      rw [nodes_count_cons] at h₁
      omega
  | succ f ih =>
    cases q with
    | nil => cases fuel₂ <;> simp [walk_fuel]
    | cons n rest =>
      have hpos := node_count_pos n
      rw [nodes_count_cons] at h₁ h₂
      cases fuel₂ with
      | zero => exfalso; omega
      | succ f₂ =>
        simp only [walk_fuel]
        have hch := children_count_lt n
        have hrec : nodes_count (rest ++ children n) ≤ f := by
          rw [nodes_count_append]; omega
        have hrec₂ : nodes_count (rest ++ children n) ≤ f₂ := by
          rw [nodes_count_append]; omega
        rw [ih f₂ (rest ++ children n) hrec hrec₂]

/-- The defining recurrence of the breadth-first walk. -/
theorem walk_cons (n : PyNode) (rest : List PyNode) :
    walk (n :: rest) = n :: walk (rest ++ children n) := by
  have hpos := node_count_pos n
  have hch := children_count_lt n
  have hn := nodes_count_cons n rest
  have happ := nodes_count_append rest (children n)
  unfold walk
  obtain ⟨m, hm⟩ : ∃ m, nodes_count (n :: rest) = m + 1 := ⟨nodes_count (n :: rest) - 1, by omega⟩
  rw [hm]
  simp only [walk_fuel]
  congr 1
  exact walk_fuel_eq m (nodes_count (rest ++ children n)) (rest ++ children n)
    (by omega) (le_refl _)

theorem walk_nil : walk [] = [] := rfl

/-! ## Closed evaluations settling the falsified claims -/

/-- C2 fails on the code: in `def g(): pass` / `def f(): g(); g()`, the fully
parsed and alias-resolved `f` keeps the duplicated dependency `"g"` - the
appends in `parse_function` and the list assignments in `resolve_imports` and
`_resolve_file_aliases` bypass the `ensure_unique` pydantic validator, which
only runs at entity construction (and would have deduplicated the list). -/
theorem C2_duplicate_dependencies :
    (resolve_file_aliases [] (parse_file "x.py" c2_module "pkg")).functions.map
        (fun f => f.dependencies) = [[], ["g", "g"]]
    ∧ ¬ (["g", "g"] : List String).Nodup
    ∧ ensure_unique ["g", "g"] = ["g"] := by
  refine ⟨by decide, by decide, by decide⟩

/-- C3 fails on the code: with `a/b/__init__.py` raising and `a/c/__init__.py`
healthy, the walk executes `a` and `a.b`, catches and logs the exception -
but abandons the queue, never executing `a.c` and never capturing its alias
(the `try`/`except` of `parse_init` wraps the whole `while` loop).  With a
healthy `a.b` the very same tree yields the `a.c` alias. -/
theorem C3_abandoned_walk :
    (parse_init "a" "ROOT" c3_tree loader_state0).executed = ["a", "a.b"]
    ∧ "a.c" ∉ (parse_init "a" "ROOT" c3_tree loader_state0).executed
    ∧ (parse_init "a" "ROOT" c3_tree loader_state0).aliases = []
    ∧ (parse_init "a" "ROOT" c3_tree loader_state0).log
        = ["Warning: Failed to execute a.b"]
    ∧ (parse_init "a" "ROOT" c3_tree_healthy loader_state0).executed = ["a", "a.b", "a.c"]
    ∧ (parse_init "a" "ROOT" c3_tree_healthy loader_state0).aliases
        = [("a.c.y", "a.k.y")] := by
  refine ⟨by decide, by decide, by decide, by decide, by decide, by decide⟩

/-- C4 as stated is false on the code: `sys.modules` is snapshotted once
around the whole walk, not per initializer - executing `a`'s initializer
registers `"a"`, and `a.b`'s initializer observes that perturbed registry
(`["a"]`, not the pre-walk snapshot `[]`) when it begins executing. -/
theorem C4_counterexample :
    (parse_init "a" "ROOT" c4_tree loader_state0).modules_at_entry
        = [("a", []), ("a.b", ["a"])]
    ∧ (["a"] : List String) ≠ [] := by
  refine ⟨by decide, by decide⟩

/-- C7 as stated is false on the code: a base-class expression that is neither
a plain name nor an attribute chain (here the call `make_base()`) is silently
omitted from `parent_classes` by `visit_ClassDef`'s `if`/`elif` (the
`"<unknown>"` sentinel of `_get_attribute_string` only appears inside
attribute chains), whereas the specification's rendering would keep a
sentinel entry. -/
theorem C7_counterexample :
    (visit_ClassDef_entity "A" [.Call (.Name "make_base") []] []).parent_classes = []
    ∧ claimed_parent_classes [.Call (.Name "make_base") []] = ["<unknown>"]
    ∧ ([] : List String) ≠ ["<unknown>"] := by
  refine ⟨by decide, by decide, by decide⟩

/-- C9 as stated is false on the code: in
`def f(): g(); if ...: def g(): pass`, the only call targets `g`, which the
body itself defines, yet the parsed dependencies are `["g"]`, not `[]` - the
breadth-first `ast.walk` reaches the call node (depth 2 below the `Expr`
statement) before the `FunctionDef` nested inside the `if` block, so `g` is
not yet in `local_functions`.  With the definition as a direct statement of
the body the dependency list is empty, wherever the call appears. -/
theorem C9_counterexample :
    (parse_function "f" c9_body).dependencies = ["g"]
    ∧ (["g"] : List String) ≠ []
    ∧ (parse_function "f" c9_body_direct).dependencies = [] := by
  refine ⟨by decide, by decide, by decide⟩

/-- C10 as stated is false on the code: a function definition nested inside a
module-top-level `if` block is not a module-top-level statement, yet
`generic_visit` recurses into the `if` body and `visit_FunctionDef` registers
it on `file.functions`. -/
theorem C10_counterexample :
    (parse_file "x.py" c10_module "pkg").functions.map (fun f => f.name) = ["g"]
    ∧ direct_def_names c10_module = []
    ∧ (["g"] : List String) ≠ [] := by
  refine ⟨by decide, by decide, by decide⟩

/-- C1 as stated is false on the code: for the raw dependency `"f"` of
`c1_module` (local alias `f -> pkg.a.f`, Loader alias
`pkg.a.f -> pkg.b.f`), the code's pipeline substitutes the local alias,
filters (keeping `pkg.a.f`, an import target), and only afterwards applies
the Loader's global alias, ending at `["pkg.b.f"]`; the claimed
substitute-(global-else-local)-then-filter pipeline ends at `["pkg.a.f"]`. -/
theorem C1_counterexample :
    c1_resolved.functions.map (fun f => f.dependencies) = [["pkg.b.f"]]
    ∧ claimed_rewrite_filter c1_global_aliases [("f", "pkg.a.f")] ["pkg.a.f"] ["g"] []
        ["f"] = ["pkg.a.f"]
    ∧ (["pkg.b.f"] : List String) ≠ ["pkg.a.f"] := by
  refine ⟨by decide, by decide, by decide⟩

/-- C8 as stated is false on the code: the global alias pass rewrote `g`'s
dependency to the canonical path `pkg.b.f`, which is not among the file's
resolved import targets, so re-running the per-file rewrite-and-filter step
over the already-resolved project drops it - the dependency list changes
from `["pkg.b.f"]` to `[]`. -/
theorem C8_counterexample :
    c1_resolved.functions.map (fun f => f.dependencies) = [["pkg.b.f"]]
    ∧ c8_rerun.functions.map (fun f => f.dependencies) = [[]]
    ∧ ([["pkg.b.f"]] : List (List String)) ≠ [[]] := by
  refine ⟨by decide, by decide, by decide⟩

/-! ## C4: the sandbox snapshot and restore -/

theorem capture_export_sys (pkg : String) (st : LoaderState)
    (nm : String × Option (Option String)) : (capture_export pkg st nm).sys = st.sys := by
  rcases nm with ⟨name, vm⟩
  rcases vm with _ | vm
  · rfl
  · rcases vm with _ | m <;> rfl

theorem foldl_capture_export_sys (pkg : String)
    (exports : List (String × Option (Option String))) (st : LoaderState) :
    (exports.foldl (capture_export pkg) st).sys = st.sys := by
  induction exports generalizing st with
  | nil => rfl
  | cons nm rest ih => rw [List.foldl_cons, ih, capture_export_sys]

theorem execute_and_capture_error_path (st st' : LoaderState) (pkg : String) (r : Bool)
    (exports : List (String × Option (Option String)))
    (h : execute_and_capture st pkg r exports = .error st') :
    st'.sys.path = st.sys.path := by
  unfold execute_and_capture at h
  by_cases hr : r = true
  · simp only [hr, if_true] at h
    cases h
    rfl
  · simp only [Bool.not_eq_true] at hr
    simp [hr] at h

theorem execute_and_capture_ok_path (st st' : LoaderState) (pkg : String) (r : Bool)
    (exports : List (String × Option (Option String)))
    (h : execute_and_capture st pkg r exports = .ok st') :
    st'.sys.path = st.sys.path := by
  unfold execute_and_capture at h
  by_cases hr : r = true
  · simp [hr] at h
  · simp only [Bool.not_eq_true] at hr
    simp only [hr, Bool.false_eq_true, if_false, Except.ok.injEq] at h
    subst h
    rw [foldl_capture_export_sys]

/-- `run_queue` never touches `sys.path`: the only `sys.path` mutation of the
loader is the insert performed by `parse_init` before the loop. -/
theorem run_queue_sys_path (fuel : Nat) (q : List (String × PkgNode)) (st : LoaderState) :
    (run_queue fuel q st).sys.path = st.sys.path := by
  induction fuel generalizing q st with
  | zero => cases q <;> rfl
  | succ f ih =>
    rcases q with _ | ⟨⟨pkg, node⟩, rest⟩
    · rfl
    · simp only [run_queue]
      by_cases hinit : node.has_init = true
      · simp only [hinit, if_true]
        cases hx : execute_and_capture st pkg node.raises node.exports with
        | error st' =>
          simpa using execute_and_capture_error_path st st' pkg node.raises node.exports hx
        | ok st' =>
          rw [ih, execute_and_capture_ok_path st st' pkg node.raises node.exports hx]
      · simp only [Bool.not_eq_true] at hinit
        simp only [hinit, Bool.false_eq_true, if_false]
        exact ih _ _

/-- C4, amended: the process-wide registry and search-path state are
snapshotted once before the whole breadth-first walk and restored once, on
every exit path of the walk (`ManagedModules.__exit__` runs unconditionally,
and a raising initializer is caught inside `parse_init`, so both conjuncts
cover raising runs); between two initializer executions no restoration
happens - the walk itself only ever adds to the perturbed state, e.g. the
inserted project root is still on `sys.path` when the walk ends. -/
theorem C4_theorem :
    (∀ (package_name project_root : String) (root : PkgNode) (st : LoaderState),
      (managed_parse_init package_name project_root root st).sys = st.sys)
    ∧ (∀ (package_name project_root : String) (root : PkgNode) (st : LoaderState),
      (parse_init package_name project_root root st).sys.path
        = project_root :: st.sys.path) := by
  constructor
  · intro package_name project_root root st
    rfl
  · intro package_name project_root root st
    unfold parse_init
    rw [run_queue_sys_path]

/-! ## C7: unsupported base-class shapes -/

/-- C7, amended: a base-class expression that is neither a name nor an
attribute chain is omitted - it contributes nothing whatsoever to the parsed
class, and extraction continues unchanged on the remaining bases (no abort);
name and attribute-chain bases are rendered as dotted strings, and an
unsupported expression nested inside an attribute chain degrades to the
`"<unknown>"` sentinel within that string. -/
theorem C7_theorem :
    (∀ (name : String) (bases₁ : List PyExpr) (b : PyExpr) (bases₂ : List PyExpr)
        (body : List PyStmt), is_name_or_attr b = false →
      visit_ClassDef_entity name (bases₁ ++ b :: bases₂) body
        = visit_ClassDef_entity name (bases₁ ++ bases₂) body)
    ∧ (∀ (v : PyExpr) (a : String), is_name_or_attr v = false →
      get_attribute_string (.Attribute v a) = "<unknown>" ++ "." ++ a) := by
  constructor
  · intro name bases₁ b bases₂ body h
    cases b with
    | Name id => simp [is_name_or_attr] at h
    | Attribute v a => simp [is_name_or_attr] at h
    | Call f args => simp [visit_ClassDef_entity, List.filterMap_append]
    | Constant => simp [visit_ClassDef_entity, List.filterMap_append]
  · intro v a h
    cases v with
    | Name id => simp [is_name_or_attr] at h
    | Attribute v' a' => simp [is_name_or_attr] at h
    | Call f args => rfl
    | Constant => rfl

/-- Witness for C7: a concrete call-expression base is dropped while the name
base before it survives, and a concrete unsupported inner node renders as the
sentinel inside the chain. -/
theorem C7_witness :
    visit_ClassDef_entity "A" [.Name "Base", .Call (.Name "make_base") []] []
      = visit_ClassDef_entity "A" [.Name "Base"] []
    ∧ get_attribute_string (.Attribute .Constant "X") = "<unknown>" ++ "." ++ "X" :=
  ⟨C7_theorem.1 "A" [.Name "Base"] (.Call (.Name "make_base") []) [] [] (by decide),
   C7_theorem.2 .Constant "X" (by decide)⟩

/-! ## C1: the order of substitution and filtering -/

/-- C1, amended: for every function and class, the code first substitutes
each dependency through the file's own local import alias map, then filters
against the file's import targets and locally defined function/class names,
and only afterwards substitutes the survivors through the Loader's global
alias map (so a surviving dependency may end at a canonical path that is not
itself an import target of the file). -/
theorem C1_theorem (p : FileParser) (g : List (String × String)) :
    (resolve_file_aliases g (resolve_imports p).file).functions
      = p.file.functions.map (fun f =>
          { f with dependencies := (local_filter_global g
              (p.aliases.filter (fun kv => starts_with kv.2 p.package_name))
              (p.imports.filter (fun x => starts_with x p.package_name))
              (p.file.functions.map (fun f => f.name))
              (p.file.classes.map (fun c => c.name))
              f.dependencies) })
    ∧ (resolve_file_aliases g (resolve_imports p).file).classes
      = p.file.classes.map (fun c =>
          { c with dependencies := (local_filter_global g
              (p.aliases.filter (fun kv => starts_with kv.2 p.package_name))
              (p.imports.filter (fun x => starts_with x p.package_name))
              (p.file.functions.map (fun f => f.name))
              (p.file.classes.map (fun c => c.name))
              c.dependencies) }) := by
  constructor <;>
    simp only [resolve_file_aliases, resolve_imports, resolve_aliases,
      local_filter_global, List.map_map] <;>
    rfl

/-! ## C8: what is and is not idempotent -/

theorem dict_get_mem {α : Type} (m : List (String × α)) (k : String) (v : α)
    (h : dict_get m k = some v) : (k, v) ∈ m := by
  induction m with
  | nil => simp [dict_get] at h
  | cons kv rest ih =>
    rcases kv with ⟨k', v'⟩
    unfold dict_get at h
    by_cases hk : k' = k
    · subst hk
      simp only [if_true] at h
      cases h
      exact List.mem_cons_self _ _
    · simp only [hk, if_false] at h
      exact List.mem_cons_of_mem _ (ih h)

/-- One global-alias substitution step is idempotent when every value of the
alias map is a fixed point of the map (Loader aliases have this shape: values
are canonical defining-module paths). -/
theorem resolve_aliases_idem (g : List (String × String))
    (hg : ∀ kv ∈ g, ∀ w, dict_get g kv.2 = some w → w = kv.2) (deps : List String) :
    resolve_aliases g (resolve_aliases g deps) = resolve_aliases g deps := by
  unfold resolve_aliases
  rw [List.map_map]
  apply List.map_congr_left
  intro d _
  simp only [Function.comp_apply]
  cases h1 : dict_get g d with
  | none => simp [h1]
  | some v =>
    simp only [Option.getD_some]
    cases h2 : dict_get g v with
    | none => simp [h2]
    | some w =>
      have hw : w = v := hg (d, v) (dict_get_mem g d v h1) w h2
      simp [h2, hw]

theorem resolve_file_aliases_idem (g : List (String × String)) (file : ParsedFile)
    (hg : ∀ kv ∈ g, ∀ w, dict_get g kv.2 = some w → w = kv.2) :
    resolve_file_aliases g (resolve_file_aliases g file) = resolve_file_aliases g file := by
  unfold resolve_file_aliases
  simp only [List.map_map]
  congr 1
  · exact resolve_aliases_idem g hg file.dependencies
  · apply List.map_congr_left
    intro f _
    simp only [Function.comp_apply]
    show ParsedFunction.mk f.name
        (resolve_aliases g (resolve_aliases g f.dependencies)) f.dependency_refs
      = ParsedFunction.mk f.name (resolve_aliases g f.dependencies) f.dependency_refs
    rw [resolve_aliases_idem g hg]
  · apply List.map_congr_left
    intro c _
    simp only [Function.comp_apply]
    show ParsedClass.mk c.name
        (resolve_aliases g (resolve_aliases g c.dependencies)) c.dependency_refs
        c.methods c.parent_classes
      = ParsedClass.mk c.name (resolve_aliases g c.dependencies) c.dependency_refs
        c.methods c.parent_classes
    rw [resolve_aliases_idem g hg]

theorem resolve_function_refs_deps (refs : List (String × EntityRef))
    (fs fs' : List ParsedFunction) (h : resolve_function_refs refs fs = .ok fs') :
    fs'.map (fun f => f.dependencies) = fs.map (fun f => f.dependencies) := by
  induction fs generalizing fs' with
  | nil =>
    unfold resolve_function_refs at h
    cases h
    rfl
  | cons f rest ih =>
    unfold resolve_function_refs at h
    cases h1 : resolve_refs refs f.dependencies with
    | error e => rw [h1] at h; cases h
    | ok r =>
      rw [h1] at h
      cases h2 : resolve_function_refs refs rest with
      | error e => rw [h2] at h; cases h
      | ok rest' =>
        rw [h2] at h
        cases h
        simp only [List.map_cons]
        rw [ih rest' h2]

theorem resolve_class_refs_deps (refs : List (String × EntityRef))
    (cs cs' : List ParsedClass) (h : resolve_class_refs refs cs = .ok cs') :
    cs'.map (fun c => c.dependencies) = cs.map (fun c => c.dependencies) := by
  induction cs generalizing cs' with
  | nil =>
    unfold resolve_class_refs at h
    cases h
    rfl
  | cons c rest ih =>
    unfold resolve_class_refs at h
    cases h1 : resolve_refs refs c.dependencies with
    | error e => rw [h1] at h; cases h
    | ok r =>
      rw [h1] at h
      cases h2 : resolve_class_refs refs rest with
      | error e => rw [h2] at h; cases h
      | ok rest' =>
        rw [h2] at h
        cases h
        simp only [List.map_cons]
        rw [ih rest' h2]

/-- C8, amended: over an already-resolved project, re-running the two global
passes changes no dependency list - the alias pass is idempotent whenever the
alias map's values are fixed points of the map (which Loader-captured maps
are), and the reference-linking pass never modifies a dependency list at all.
Re-running the per-file rewrite-and-filter step, by contrast, is not
change-free (see the counterexample): it drops dependencies that the global
pass rewrote to canonical paths outside the file's import list. -/
theorem C8_theorem :
    (∀ (g : List (String × String)) (file : ParsedFile),
      (∀ kv ∈ g, ∀ w, dict_get g kv.2 = some w → w = kv.2) →
      resolve_file_aliases g (resolve_file_aliases g file) = resolve_file_aliases g file)
    ∧ (∀ (refs : List (String × EntityRef)) (file file' : ParsedFile),
      resolve_file_references refs file = .ok file' →
      file'.dependencies = file.dependencies
      ∧ file'.functions.map (fun f => f.dependencies)
          = file.functions.map (fun f => f.dependencies)
      ∧ file'.classes.map (fun c => c.dependencies)
          = file.classes.map (fun c => c.dependencies)) := by
  constructor
  · intro g file hg
    exact resolve_file_aliases_idem g file hg
  · intro refs file file' h
    unfold resolve_file_references at h
    cases h1 : resolve_function_refs refs file.functions with
    | error e => rw [h1] at h; cases h
    | ok fns =>
      rw [h1] at h
      cases h2 : resolve_class_refs refs file.classes with
      | error e => rw [h2] at h; cases h
      | ok cls =>
        rw [h2] at h
        cases h3 : resolve_refs refs file.dependencies with
        | error e => rw [h3] at h; cases h
        | ok frefs =>
          rw [h3] at h
          cases h
          exact ⟨rfl, resolve_function_refs_deps refs _ _ h1,
            resolve_class_refs_deps refs _ _ h2⟩

/-- Witness for C8: the fixed-point alias map `pkg.a.f -> pkg.b.f` is
idempotent on a concrete resolved file, and a concrete successful linking run
leaves the dependency lists untouched. -/
theorem C8_witness :
    resolve_file_aliases c8_fixed_aliases (resolve_file_aliases c8_fixed_aliases c8_file)
      = resolve_file_aliases c8_fixed_aliases c8_file
    ∧ c6_file_ok_resolved.functions.map (fun f => f.dependencies)
      = c6_file_ok.functions.map (fun f => f.dependencies) :=
  ⟨C8_theorem.1 c8_fixed_aliases c8_file (by decide),
   (C8_theorem.2 c6_references c6_file_ok c6_file_ok_resolved rfl).2.1⟩

/-! ## C6: reference linking fails hard on missing keys -/

theorem resolve_refs_error_of_missing (refs : List (String × EntityRef))
    (deps : List String) (d : String) (hd : d ∈ deps) (hmiss : dict_get refs d = none) :
    ∃ e, resolve_refs refs deps = .error e := by
  induction deps with
  | nil => cases hd
  | cons d₀ ds ih =>
    by_cases hh : d = d₀
    · subst hh
      refine ⟨d, ?_⟩
      unfold resolve_refs
      rw [hmiss]
    · have hd' : d ∈ ds := by
        cases hd with
        | head => exact absurd rfl hh
        | tail _ h => exact h
      cases h1 : dict_get refs d₀ with
      | none =>
        refine ⟨d₀, ?_⟩
        unfold resolve_refs
        rw [h1]
      | some ent =>
        obtain ⟨e, he⟩ := ih hd'
        refine ⟨e, ?_⟩
        unfold resolve_refs
        rw [h1, he]
        rfl

theorem resolve_refs_ok_attaches (refs : List (String × EntityRef))
    (deps : List String) (out : List (String × EntityRef))
    (h : resolve_refs refs deps = .ok out) :
    ∀ d ∈ deps, ∃ ent, dict_get refs d = some ent ∧ (d, ent) ∈ out := by
  induction deps generalizing out with
  | nil => intro d hd; cases hd
  | cons d₀ ds ih =>
    unfold resolve_refs at h
    cases h1 : dict_get refs d₀ with
    | none => rw [h1] at h; cases h
    | some ent =>
      rw [h1] at h
      cases h2 : resolve_refs refs ds with
      | error e => rw [h2] at h; cases h
      | ok rest =>
        rw [h2] at h
        cases h
        intro d hd
        cases hd with
        | head => exact ⟨ent, h1, List.mem_cons_self _ _⟩
        | tail _ hmem =>
          obtain ⟨ent', hget, hout⟩ := ih rest h2 d hmem
          exact ⟨ent', hget, List.mem_cons_of_mem _ hout⟩

theorem resolve_function_refs_error_of_missing (refs : List (String × EntityRef))
    (fs : List ParsedFunction) (f : ParsedFunction) (d : String)
    (hf : f ∈ fs) (hd : d ∈ f.dependencies) (hmiss : dict_get refs d = none) :
    ∃ e, resolve_function_refs refs fs = .error e := by
  induction fs with
  | nil => cases hf
  | cons f₀ rest ih =>
    cases h1 : resolve_refs refs f₀.dependencies with
    | error e =>
      refine ⟨e, ?_⟩
      unfold resolve_function_refs
      rw [h1]
    | ok r =>
      cases hf with
      | head =>
        obtain ⟨e, he⟩ := resolve_refs_error_of_missing refs f.dependencies d hd hmiss
        rw [he] at h1
        cases h1
      | tail _ hmem =>
        obtain ⟨e, he⟩ := ih hmem
        refine ⟨e, ?_⟩
        unfold resolve_function_refs
        rw [h1, he]
        rfl

theorem resolve_class_refs_error_of_missing (refs : List (String × EntityRef))
    (cs : List ParsedClass) (c : ParsedClass) (d : String)
    (hc : c ∈ cs) (hd : d ∈ c.dependencies) (hmiss : dict_get refs d = none) :
    ∃ e, resolve_class_refs refs cs = .error e := by
  induction cs with
  | nil => cases hc
  | cons c₀ rest ih =>
    cases h1 : resolve_refs refs c₀.dependencies with
    | error e =>
      refine ⟨e, ?_⟩
      unfold resolve_class_refs
      rw [h1]
    | ok r =>
      cases hc with
      | head =>
        obtain ⟨e, he⟩ := resolve_refs_error_of_missing refs c.dependencies d hd hmiss
        rw [he] at h1
        cases h1
      | tail _ hmem =>
        obtain ⟨e, he⟩ := ih hmem
        refine ⟨e, ?_⟩
        unfold resolve_class_refs
        rw [h1, he]
        rfl

/-- C6, confirmed: on success, every dependency string of every entity has
been looked up in the reference index and its owning entity attached to the
entity's `dependency_refs`; a dependency string missing from the index makes
`_resolve_file_references` surface an uncaught `KeyError` (`Except.error`) to
the caller - never a silently skipped or dropped entry. -/
theorem C6_theorem :
    (∀ (refs : List (String × EntityRef)) (deps : List String)
        (out : List (String × EntityRef)),
      resolve_refs refs deps = .ok out →
      ∀ d ∈ deps, ∃ ent, dict_get refs d = some ent ∧ (d, ent) ∈ out)
    ∧ (∀ (refs : List (String × EntityRef)) (file : ParsedFile) (d : String),
      (d ∈ file.dependencies
        ∨ (∃ f ∈ file.functions, d ∈ f.dependencies)
        ∨ (∃ c ∈ file.classes, d ∈ c.dependencies)) →
      dict_get refs d = none →
      ∃ e, resolve_file_references refs file = .error e) := by
  constructor
  · exact resolve_refs_ok_attaches
  · intro refs file d hmem hmiss
    cases hf : resolve_function_refs refs file.functions with
    | error e =>
      refine ⟨e, ?_⟩
      unfold resolve_file_references
      rw [hf]
    | ok fns =>
      cases hc : resolve_class_refs refs file.classes with
      | error e =>
        refine ⟨e, ?_⟩
        unfold resolve_file_references
        rw [hf, hc]
      | ok cls =>
        rcases hmem with hfile | ⟨f, hfmem, hd⟩ | ⟨c, hcmem, hd⟩
        · obtain ⟨e, he⟩ := resolve_refs_error_of_missing refs file.dependencies d hfile hmiss
          refine ⟨e, ?_⟩
          unfold resolve_file_references
          rw [hf, hc, he]
        · obtain ⟨e, he⟩ :=
            resolve_function_refs_error_of_missing refs file.functions f d hfmem hd hmiss
          rw [he] at hf
          cases hf
        · obtain ⟨e, he⟩ :=
            resolve_class_refs_error_of_missing refs file.classes c d hcmem hd hmiss
          rw [he] at hc
          cases hc

/-- Witness for C6: linking `c6_file` (whose function depends on the
unregistered `pkg.m.missing`) against `c6_references` surfaces an error, and
the successful linking of `c6_file_ok` attaches the `pkg.m.known` entity. -/
theorem C6_witness :
    (∃ e, resolve_file_references c6_references c6_file = .error e)
    ∧ (∃ ent, dict_get c6_references "pkg.m.known" = some ent
        ∧ ("pkg.m.known", ent) ∈ [("pkg.m.known", EntityRef.func "known")]) :=
  ⟨C6_theorem.2 c6_references c6_file "pkg.m.missing"
      (Or.inr (Or.inl ⟨⟨"f", ["pkg.m.missing"], []⟩, by decide, by decide⟩)) (by decide),
   C6_theorem.1 c6_references ["pkg.m.known"] [("pkg.m.known", EntityRef.func "known")]
      rfl "pkg.m.known" (by decide)⟩

/-! ## C5: `self.`-qualified dependencies -/

/-- Whatever the state of `local_functions`, an attribute-call node in the
traversal always contributes its rendered dotted string: the `elif
isinstance(child.func, ast.Attribute)` branch has no `local_functions`
check and no `self.` stripping. -/
theorem wd_attribute_mem (l : List PyNode) (local_functions : List String)
    (v : PyExpr) (a : String) (args : List PyExpr)
    (hmem : (.expr (.Call (.Attribute v a) args) : PyNode) ∈ l) :
    get_attribute_string (.Attribute v a) ∈ walk_dependencies l local_functions := by
  induction l generalizing local_functions with
  | nil => cases hmem
  | cons n rest ih =>
    cases hmem with
    | head =>
      simp only [walk_dependencies]
      exact List.mem_cons_self _ _
    | tail _ hmem' =>
      cases n with
      | stmt s =>
        cases s with
        | FunctionDef nm b =>
          simp only [walk_dependencies]
          exact ih _ hmem'
        | ClassDef nm bs b => simp only [walk_dependencies]; exact ih _ hmem'
        | Expr e => simp only [walk_dependencies]; exact ih _ hmem'
        | If t b o => simp only [walk_dependencies]; exact ih _ hmem'
        | Return vv => simp only [walk_dependencies]; exact ih _ hmem'
        | Assign e => simp only [walk_dependencies]; exact ih _ hmem'
        | Import ns => simp only [walk_dependencies]; exact ih _ hmem'
        | ImportFrom m ns => simp only [walk_dependencies]; exact ih _ hmem'
        | Pass => simp only [walk_dependencies]; exact ih _ hmem'
      | expr e =>
        cases e with
        | Name id => simp only [walk_dependencies]; exact ih _ hmem'
        | Attribute v' a' => simp only [walk_dependencies]; exact ih _ hmem'
        | Constant => simp only [walk_dependencies]; exact ih _ hmem'
        | Call f fargs =>
          cases f with
          | Name id =>
            simp only [walk_dependencies]
            by_cases hid : id ∈ local_functions
            · simp only [hid, if_true]
              exact ih _ hmem'
            · simp only [hid, if_false]
              exact List.mem_cons_of_mem _ (ih _ hmem')
          | Attribute v' a' =>
            simp only [walk_dependencies]
            exact List.mem_cons_of_mem _ (ih _ hmem')
          | Call g gargs => simp only [walk_dependencies]; exact ih _ hmem'
          | Constant => simp only [walk_dependencies]; exact ih _ hmem'

theorem mem_of_mem_ensure_unique_aux (x : String) (seen l : List String)
    (h : x ∈ ensure_unique_aux seen l) : x ∈ l := by
  induction l generalizing seen with
  | nil => cases h
  | cons y ys ih =>
    unfold ensure_unique_aux at h
    by_cases hy : y ∈ seen
    · simp only [hy, if_true] at h
      exact List.mem_cons_of_mem _ (ih _ h)
    · simp only [hy, if_false] at h
      cases h with
      | head => exact List.mem_cons_self _ _
      | tail _ h' => exact List.mem_cons_of_mem _ (ih _ h')

theorem mem_of_mem_ensure_unique (x : String) (l : List String)
    (h : x ∈ ensure_unique l) : x ∈ l :=
  mem_of_mem_ensure_unique_aux x [] l h

/-- Membership in the accumulated method-dependency unpacking of
`visit_ClassDef`. -/
theorem mem_unpack_deps (methods : List ParsedFunction) (init : List String) (x : String)
    (h : x ∈ methods.foldl (fun acc method =>
      acc ++ method.dependencies.filter (fun d => !(starts_with d "self."))) init) :
    x ∈ init ∨ ∃ m ∈ methods, x ∈ m.dependencies.filter (fun d => !(starts_with d "self.")) := by
  induction methods generalizing init with
  | nil => exact Or.inl h
  | cons m ms ih =>
    rw [List.foldl_cons] at h
    rcases ih _ h with hinit | ⟨m', hm', hx⟩
    · rcases List.mem_append.mp hinit with h' | h'
      · exact Or.inl h'
      · exact Or.inr ⟨m, List.mem_cons_self _ _, h'⟩
    · exact Or.inr ⟨m', List.mem_cons_of_mem _ hm', hx⟩

/-- C5, confirmed: a method's call through the instance is recorded verbatim
(`self.<name>`, unstripped) on the method's own dependency list; the method
lists survive `resolve_imports` and the global alias pass untouched; and the
class's own aggregated dependency list contains no `self.`-prefixed string -
at construction (given that no base-class expression renders to one) and
after the file's rewrite-and-filter step (given that no import target and no
locally defined name is `self.`-prefixed). -/
theorem C5_theorem :
    (∀ (name : String) (body : List PyStmt) (a : String),
      (walk [.stmt (.FunctionDef name body)]).any (has_self_call a) = true →
      ("self." ++ a) ∈ (parse_function name body).dependencies)
    ∧ (∀ p : FileParser,
      ((resolve_imports p).file.classes).map (fun c => c.methods)
        = p.file.classes.map (fun c => c.methods))
    ∧ (∀ (g : List (String × String)) (file : ParsedFile),
      ((resolve_file_aliases g file).classes).map (fun c => c.methods)
        = file.classes.map (fun c => c.methods))
    ∧ (∀ (name : String) (bases : List PyExpr) (body : List PyStmt),
      (∀ s ∈ (visit_ClassDef_entity name bases body).parent_classes,
        starts_with s "self." = false) →
      ∀ s ∈ (visit_ClassDef_entity name bases body).dependencies,
        starts_with s "self." = false)
    ∧ (∀ p : FileParser,
      (∀ x ∈ p.imports, starts_with x "self." = false) →
      (∀ f ∈ p.file.functions, starts_with f.name "self." = false) →
      (∀ c ∈ p.file.classes, starts_with c.name "self." = false) →
      ∀ c ∈ (resolve_imports p).file.classes, ∀ s ∈ c.dependencies,
        starts_with s "self." = false) := by
  refine ⟨?_, ?_, ?_, ?_, ?_⟩
  · intro name body a h
    rcases List.any_eq_true.mp h with ⟨n, hmem, hp⟩
    rcases n with s | e
    · simp [has_self_call] at hp
    · cases e with
      | Name id => simp [has_self_call] at hp
      | Attribute v' a' => simp [has_self_call] at hp
      | Constant => simp [has_self_call] at hp
      | Call f fargs =>
        cases f with
        | Name id => simp [has_self_call] at hp
        | Call g gargs => simp [has_self_call] at hp
        | Constant => simp [has_self_call] at hp
        | Attribute v a' =>
          cases v with
          | Attribute v'' a'' => simp [has_self_call] at hp
          | Call g gargs => simp [has_self_call] at hp
          | Constant => simp [has_self_call] at hp
          | Name id =>
            simp only [has_self_call, Bool.and_eq_true, beq_iff_eq] at hp
            obtain ⟨hid, ha⟩ := hp
            subst hid
            subst ha
            exact wd_attribute_mem _ [] (.Name "self") a' fargs hmem
  · intro p
    simp only [resolve_imports, List.map_map]
    rfl
  · intro g file
    simp only [resolve_file_aliases, List.map_map]
    rfl
  · intro name bases body hpc s hs
    simp only [visit_ClassDef_entity] at hs
    have hs' := mem_of_mem_ensure_unique _ _ hs
    rcases List.mem_append.mp hs' with hleft | hright
    · rcases mem_unpack_deps _ _ _ hleft with hinit | ⟨m, hm, hx⟩
      · cases hinit
      · have := (List.mem_filter.mp hx).2
        simpa using this
    · exact hpc s (by simpa [visit_ClassDef_entity] using hright)
  · intro p h1 h2 h3 c hc s hs
    simp only [resolve_imports, List.map_map, List.mem_map] at hc
    obtain ⟨c₀, hc₀, hceq⟩ := hc
    subst hceq
    simp only [Function.comp_apply] at hs
    have hs' := List.mem_filter.mp hs
    have hfn := hs'.2
    simp only [Bool.or_eq_true] at hfn
    rcases hfn with (himp | hf) | hcl
    · have himp' : s ∈ p.imports ∧ starts_with s p.package_name = true := by simpa using himp
      exact h1 s himp'.1
    · have hf' : s ∈ p.file.functions.map (fun f => f.name) := by
        simpa [Function.comp] using hf
      simp only [List.mem_map] at hf'
      obtain ⟨f₀, hf₀, hfeq⟩ := hf'
      rw [← hfeq]
      exact h2 f₀ hf₀
    · have hcl' : s ∈ p.file.classes.map (fun c => c.name) := by
        simpa [Function.comp] using hcl
      simp only [List.mem_map] at hcl'
      obtain ⟨c₁, hc₁, hceq'⟩ := hcl'
      rw [← hceq']
      exact h3 c₁ hc₁

/-- Witness for C5: in the mock `ExampleClass`, the instance call
`self.method_with_dependency()` is recorded verbatim on the method's own
dependency list, is absent from the class's aggregated dependency list at
construction, and is absent from every class dependency list of the parsed
file. -/
theorem C5_witness :
    ("self." ++ "method_with_dependency")
      ∈ (parse_function "internal_dependency" internal_dependency_body).dependencies
    ∧ "self.method_with_dependency"
      ∉ (visit_ClassDef_entity "ExampleClass" [] example_class_body).dependencies
    ∧ "self.method_with_dependency"
      ∉ ((resolve_imports c5_visited).file.classes.map (fun c => c.dependencies)).flatten := by
  refine ⟨?_, ?_, ?_⟩
  · exact C5_theorem.1 "internal_dependency" internal_dependency_body
      "method_with_dependency" (by decide)
  · intro hmem
    exact absurd
      (C5_theorem.2.2.2.1 "ExampleClass" [] example_class_body (by decide)
        "self.method_with_dependency" hmem)
      (by decide)
  · intro hmem
    rw [List.mem_flatten] at hmem
    obtain ⟨deps, hdeps, hs⟩ := hmem
    rw [List.mem_map] at hdeps
    obtain ⟨c, hcmem, hceq⟩ := hdeps
    rw [← hceq] at hs
    exact absurd
      (C5_theorem.2.2.2.2 c5_visited (by decide) (by decide) (by decide) c hcmem
        "self.method_with_dependency" hs)
      (by decide)

/-! ## C10: which definitions get registered -/

theorem visit_Import_file (p : FileParser) (names : List (String × Option String)) :
    (visit_Import p names).file = p.file := by
  induction names generalizing p with
  | nil => rfl
  | cons nm rest ih =>
    unfold visit_Import
    rw [List.foldl_cons]
    have step : ∀ q : FileParser,
        (visit_Import q rest).file = q.file := fun q => ih q
    rcases nm with ⟨name, _ | asname⟩
    · exact step _
    · exact step _

theorem visit_ImportFrom_file (p : FileParser) (module : String)
    (names : List (String × Option String)) :
    (visit_ImportFrom p module names).file = p.file := by
  induction names generalizing p with
  | nil => rfl
  | cons nm rest ih =>
    unfold visit_ImportFrom
    rw [List.foldl_cons]
    have step : ∀ q : FileParser,
        (visit_ImportFrom q module rest).file = q.file := fun q => ih q
    rcases nm with ⟨name, _ | asname⟩
    · exact step _
    · exact step _

theorem registered_function_defs_cons (s : PyStmt) (ss : List PyStmt) :
    registered_function_defs (s :: ss)
      = registered_function_defs [s] ++ registered_function_defs ss := by
  cases s <;> simp [registered_function_defs]

theorem registered_class_defs_cons (s : PyStmt) (ss : List PyStmt) :
    registered_class_defs (s :: ss)
      = registered_class_defs [s] ++ registered_class_defs ss := by
  cases s <;> simp [registered_class_defs]

mutual
theorem visit_file_entities (p : FileParser) (s : PyStmt) :
    (visit p s).file.functions
      = p.file.functions
        ++ (registered_function_defs [s]).map (fun nb => parse_function nb.1 nb.2)
    ∧ (visit p s).file.classes
      = p.file.classes
        ++ (registered_class_defs [s]).map (fun x => visit_ClassDef_entity x.1 x.2.1 x.2.2) := by
  cases s with
  | FunctionDef n b =>
    constructor
    · simp [visit, registered_function_defs]
    · simp [visit, registered_class_defs]
  | ClassDef n bs b =>
    constructor
    · simp [visit, registered_function_defs]
    · simp [visit, registered_class_defs]
  | Expr e => constructor <;> simp [visit, registered_function_defs, registered_class_defs]
  | Return v => constructor <;> simp [visit, registered_function_defs, registered_class_defs]
  | Assign e => constructor <;> simp [visit, registered_function_defs, registered_class_defs]
  | Pass => constructor <;> simp [visit, registered_function_defs, registered_class_defs]
  | Import names =>
    constructor <;>
      simp [visit, visit_Import_file, registered_function_defs, registered_class_defs]
  | ImportFrom m names =>
    constructor <;>
      simp [visit, visit_ImportFrom_file, registered_function_defs, registered_class_defs]
  | If t b o =>
    have hb := visit_list_file_entities p b
    have ho := visit_list_file_entities (visit_list p b) o
    constructor
    · show (visit_list (visit_list p b) o).file.functions = _
      rw [ho.1, hb.1]
      simp [registered_function_defs, List.append_assoc]
    · show (visit_list (visit_list p b) o).file.classes = _
      rw [ho.2, hb.2]
      simp [registered_class_defs, List.append_assoc]

theorem visit_list_file_entities (p : FileParser) (ss : List PyStmt) :
    (visit_list p ss).file.functions
      = p.file.functions
        ++ (registered_function_defs ss).map (fun nb => parse_function nb.1 nb.2)
    ∧ (visit_list p ss).file.classes
      = p.file.classes
        ++ (registered_class_defs ss).map (fun x => visit_ClassDef_entity x.1 x.2.1 x.2.2) := by
  cases ss with
  | nil => constructor <;> simp [visit_list, registered_function_defs, registered_class_defs]
  | cons s rest =>
    have hs := visit_file_entities p s
    have hrest := visit_list_file_entities (visit p s) rest
    constructor
    · show (visit_list (visit p s) rest).file.functions = _
      rw [hrest.1, hs.1, registered_function_defs_cons s rest, List.map_append,
        List.append_assoc]
    · show (visit_list (visit p s) rest).file.classes = _
      rw [hrest.2, hs.2, registered_class_defs_cons s rest, List.map_append,
        List.append_assoc]
end

/-- C10, amended: `file.functions` (resp. `file.classes`) contains exactly
the function (class) definitions reachable from the module body without
crossing any `FunctionDef` or `ClassDef` boundary - the visitor recurses
through other compound statements (e.g. a top-level `if` block, whose
definitions are therefore included even though they are not module-top-level
statements), while methods, nested functions and nested classes are never
registered because `visit_FunctionDef` and `visit_ClassDef` do not call
`generic_visit`. -/
theorem C10_theorem (path package_name : String) (module_body : List PyStmt) :
    (parse_file path module_body package_name).functions.map (fun f => f.name)
      = (registered_function_defs module_body).map (fun nb => nb.1)
    ∧ (parse_file path module_body package_name).classes.map (fun c => c.name)
      = (registered_class_defs module_body).map (fun x => x.1)
    ∧ (visit_list (file_parser_init path package_name) module_body).file.functions
      = (registered_function_defs module_body).map (fun nb => parse_function nb.1 nb.2)
    ∧ (visit_list (file_parser_init path package_name) module_body).file.classes
      = (registered_class_defs module_body).map
          (fun x => visit_ClassDef_entity x.1 x.2.1 x.2.2) := by
  have hv := visit_list_file_entities (file_parser_init path package_name) module_body
  have hvf : (visit_list (file_parser_init path package_name) module_body).file.functions
      = (registered_function_defs module_body).map (fun nb => parse_function nb.1 nb.2) := by
    rw [hv.1]; rfl
  have hvc : (visit_list (file_parser_init path package_name) module_body).file.classes
      = (registered_class_defs module_body).map
          (fun x => visit_ClassDef_entity x.1 x.2.1 x.2.2) := by
    rw [hv.2]; rfl
  refine ⟨?_, ?_, hvf, hvc⟩
  · show ((resolve_imports (visit_list (file_parser_init path package_name)
        module_body)).file.functions).map (fun f => f.name) = _
    simp only [resolve_imports, List.map_map]
    show ((visit_list (file_parser_init path package_name) module_body).file.functions).map _ = _
    rw [hvf, List.map_map]
    rfl
  · show ((resolve_imports (visit_list (file_parser_init path package_name)
        module_body)).file.classes).map (fun c => c.name) = _
    simp only [resolve_imports, List.map_map]
    show ((visit_list (file_parser_init path package_name) module_body).file.classes).map _ = _
    rw [hvc, List.map_map]
    rfl

/-! ## C9: shadowing and the breadth-first walk -/

/-- Level decomposition of the breadth-first walk: the queue is emitted in
order, followed by the walk of the pending children. -/
theorem walk_append_levels (xs ys : List PyNode) :
    walk (xs ++ ys) = xs ++ walk (ys ++ children_of_list xs) := by
  induction xs generalizing ys with
  | nil => simp [children_of_list]
  | cons x xs' ih =>
    rw [List.cons_append, walk_cons, List.append_assoc, ih (ys ++ children x)]
    simp [children_of_list, List.append_assoc]

/-- `walk` of a whole queue: the queue, then the walk of its children. -/
theorem walk_eq_self_append (xs : List PyNode) :
    walk xs = xs ++ walk (children_of_list xs) := by
  have := walk_append_levels xs []
  simpa using this

/-- The dependency collection distributes over list concatenation, threading
the `local_functions` accumulator. -/
theorem wd_append (xs ys : List PyNode) (L : List String) :
    walk_dependencies (xs ++ ys) L
      = walk_dependencies xs L ++ walk_dependencies ys (locals_after xs L) := by
  induction xs generalizing L with
  | nil => simp [walk_dependencies, locals_after]
  | cons n xs' ih =>
    cases n with
    | stmt s =>
      cases s with
      | FunctionDef nm b =>
        simp only [List.cons_append, walk_dependencies, locals_after]
        exact ih _
      | ClassDef nm bs b =>
        simp only [List.cons_append, walk_dependencies, locals_after]; exact ih _
      | Expr e => simp only [List.cons_append, walk_dependencies, locals_after]; exact ih _
      | If t b o => simp only [List.cons_append, walk_dependencies, locals_after]; exact ih _
      | Return v => simp only [List.cons_append, walk_dependencies, locals_after]; exact ih _
      | Assign e => simp only [List.cons_append, walk_dependencies, locals_after]; exact ih _
      | Import ns => simp only [List.cons_append, walk_dependencies, locals_after]; exact ih _
      | ImportFrom m ns =>
        simp only [List.cons_append, walk_dependencies, locals_after]; exact ih _
      | Pass => simp only [List.cons_append, walk_dependencies, locals_after]; exact ih _
    | expr e =>
      cases e with
      | Name id => simp only [List.cons_append, walk_dependencies, locals_after]; exact ih _
      | Attribute v a =>
        simp only [List.cons_append, walk_dependencies, locals_after]; exact ih _
      | Constant => simp only [List.cons_append, walk_dependencies, locals_after]; exact ih _
      | Call f fargs =>
        cases f with
        | Name id =>
          simp only [List.cons_append, walk_dependencies, locals_after]
          by_cases hid : id ∈ L
          · simp only [hid, if_true]
            exact ih _
          · simp only [hid, if_false, List.cons_append, List.append_eq]
            rw [ih]
        | Attribute v a =>
          simp only [List.cons_append, walk_dependencies, locals_after, List.append_eq]
          rw [ih]
        | Call g gargs =>
          simp only [List.cons_append, walk_dependencies, locals_after]; exact ih _
        | Constant =>
          simp only [List.cons_append, walk_dependencies, locals_after]; exact ih _

/-- Statement nodes emit no dependency: only expression `Call` nodes do. -/
theorem wd_stmt_nodes (ss : List PyStmt) (L : List String) :
    walk_dependencies (ss.map .stmt) L = [] := by
  induction ss generalizing L with
  | nil => rfl
  | cons s rest ih =>
    cases s <;> simp only [List.map_cons, walk_dependencies] <;> exact ih _

theorem locals_after_mem (l : List PyNode) (L : List String) (x : String) (hx : x ∈ L) :
    x ∈ locals_after l L := by
  induction l generalizing L with
  | nil => exact hx
  | cons n rest ih =>
    cases n with
    | stmt s =>
      cases s with
      | FunctionDef nm b =>
        simp only [locals_after]
        exact ih _ (List.mem_cons_of_mem _ hx)
      | ClassDef nm bs b => simp only [locals_after]; exact ih _ hx
      | Expr e => simp only [locals_after]; exact ih _ hx
      | If t b o => simp only [locals_after]; exact ih _ hx
      | Return v => simp only [locals_after]; exact ih _ hx
      | Assign e => simp only [locals_after]; exact ih _ hx
      | Import ns => simp only [locals_after]; exact ih _ hx
      | ImportFrom m ns => simp only [locals_after]; exact ih _ hx
      | Pass => simp only [locals_after]; exact ih _ hx
    | expr e => simp only [locals_after]; exact ih _ hx

/-- Every direct function definition of the body has been added to
`local_functions` once the body's statement nodes have been traversed. -/
theorem direct_defs_in_locals (body : List PyStmt) (L : List String) (c : String)
    (hc : c ∈ direct_def_names body) : c ∈ locals_after (body.map .stmt) L := by
  induction body generalizing L with
  | nil => cases hc
  | cons s rest ih =>
    cases s with
    | FunctionDef n b =>
      simp only [List.map_cons, locals_after]
      rcases List.mem_filterMap.mp hc with ⟨s', hs', he⟩
      rcases List.mem_cons.mp hs' with rfl | hs''
      · simp only at he
        cases he
        exact locals_after_mem _ _ _ (List.mem_cons_self _ _)
      · exact ih (n :: L) (List.mem_filterMap.mpr ⟨s', hs'', he⟩)
    | ClassDef n bs b =>
      simp only [List.map_cons, locals_after]
      rcases List.mem_filterMap.mp hc with ⟨s', hs', he⟩
      rcases List.mem_cons.mp hs' with rfl | hs''
      · simp at he
      · exact ih L (List.mem_filterMap.mpr ⟨s', hs'', he⟩)
    | Expr e =>
      simp only [List.map_cons, locals_after]
      rcases List.mem_filterMap.mp hc with ⟨s', hs', he⟩
      rcases List.mem_cons.mp hs' with rfl | hs''
      · simp at he
      · exact ih L (List.mem_filterMap.mpr ⟨s', hs'', he⟩)
    | If t b o =>
      simp only [List.map_cons, locals_after]
      rcases List.mem_filterMap.mp hc with ⟨s', hs', he⟩
      rcases List.mem_cons.mp hs' with rfl | hs''
      · simp at he
      · exact ih L (List.mem_filterMap.mpr ⟨s', hs'', he⟩)
    | Return v =>
      simp only [List.map_cons, locals_after]
      rcases List.mem_filterMap.mp hc with ⟨s', hs', he⟩
      rcases List.mem_cons.mp hs' with rfl | hs''
      · simp at he
      · exact ih L (List.mem_filterMap.mpr ⟨s', hs'', he⟩)
    | Assign e =>
      simp only [List.map_cons, locals_after]
      rcases List.mem_filterMap.mp hc with ⟨s', hs', he⟩
      rcases List.mem_cons.mp hs' with rfl | hs''
      · simp at he
      · exact ih L (List.mem_filterMap.mpr ⟨s', hs'', he⟩)
    | Import ns =>
      simp only [List.map_cons, locals_after]
      rcases List.mem_filterMap.mp hc with ⟨s', hs', he⟩
      rcases List.mem_cons.mp hs' with rfl | hs''
      · simp at he
      · exact ih L (List.mem_filterMap.mpr ⟨s', hs'', he⟩)
    | ImportFrom m ns =>
      simp only [List.map_cons, locals_after]
      rcases List.mem_filterMap.mp hc with ⟨s', hs', he⟩
      rcases List.mem_cons.mp hs' with rfl | hs''
      · simp at he
      · exact ih L (List.mem_filterMap.mpr ⟨s', hs'', he⟩)
    | Pass =>
      simp only [List.map_cons, locals_after]
      rcases List.mem_filterMap.mp hc with ⟨s', hs', he⟩
      rcases List.mem_cons.mp hs' with rfl | hs''
      · simp at he
      · exact ih L (List.mem_filterMap.mpr ⟨s', hs'', he⟩)

/-- Lists of call-free statements are pointwise call-free. -/
theorem stmt_list_call_free_mem (ss : List PyStmt) (h : stmt_list_call_free ss = true) :
    ∀ s ∈ ss, stmt_call_free s = true := by
  induction ss with
  | nil => intro s hs; cases hs
  | cons st rest ih =>
    rw [stmt_list_call_free, Bool.and_eq_true] at h
    intro s hs
    rcases List.mem_cons.mp hs with rfl | hs'
    · exact h.1
    · exact ih h.2 s hs'

theorem expr_list_call_free_mem (es : List PyExpr) (h : expr_list_call_free es = true) :
    ∀ e ∈ es, expr_call_free e = true := by
  induction es with
  | nil => intro e he; cases he
  | cons e₀ rest ih =>
    rw [expr_list_call_free, Bool.and_eq_true] at h
    intro e he
    rcases List.mem_cons.mp he with rfl | he'
    · exact h.1
    · exact ih h.2 e he'

/-- Call-freeness is inherited by every child node. -/
theorem call_free_children (n : PyNode) (h : node_call_free n = true) :
    ∀ m ∈ children n, node_call_free m = true := by
  intro m hm
  cases n with
  | stmt s =>
    cases s with
    | FunctionDef nm b =>
      rw [node_call_free, stmt_call_free] at h
      simp only [children, List.mem_map] at hm
      obtain ⟨st, hst, rfl⟩ := hm
      exact stmt_list_call_free_mem b h st hst
    | ClassDef nm bs b =>
      rw [node_call_free, stmt_call_free, Bool.and_eq_true] at h
      simp only [children, List.mem_append, List.mem_map] at hm
      rcases hm with ⟨e, he, rfl⟩ | ⟨st, hst, rfl⟩
      · exact expr_list_call_free_mem bs h.1 e he
      · exact stmt_list_call_free_mem b h.2 st hst
    | Expr e =>
      rw [node_call_free, stmt_call_free] at h
      simp only [children, List.mem_singleton] at hm
      subst hm
      exact h
    | If t b o =>
      rw [node_call_free, stmt_call_free, Bool.and_eq_true, Bool.and_eq_true] at h
      simp only [children, List.mem_cons, List.mem_append, List.mem_map] at hm
      rcases hm with rfl | ⟨st, hst, rfl⟩ | ⟨st, hst, rfl⟩
      · exact h.1
      · exact stmt_list_call_free_mem b h.2.1 st hst
      · exact stmt_list_call_free_mem o h.2.2 st hst
    | Return v =>
      cases v with
      | none => simp [children] at hm
      | some e =>
        rw [node_call_free, stmt_call_free] at h
        simp only [children, List.mem_singleton] at hm
        subst hm
        exact h
    | Assign e =>
      rw [node_call_free, stmt_call_free] at h
      simp only [children, List.mem_singleton] at hm
      subst hm
      exact h
    | Import ns => simp [children] at hm
    | ImportFrom m' ns => simp [children] at hm
    | Pass => simp [children] at hm
  | expr e =>
    cases e with
    | Name id => simp [children] at hm
    | Attribute v a =>
      rw [node_call_free, expr_call_free] at h
      simp only [children, List.mem_singleton] at hm
      subst hm
      exact h
    | Call f args => rw [node_call_free, expr_call_free] at h; cases h
    | Constant => simp [children] at hm

/-- Goodness is inherited by every child node: a call-free node has call-free
children, and a bare call's children are its (call-free) name and its
call-free arguments. -/
theorem good_node_children (L : List String) (n : PyNode) (h : good_node L n) :
    ∀ m ∈ children n, good_node L m := by
  intro m hm
  rcases h with hcf | ⟨c, args, rfl, hc, hargs⟩
  · exact Or.inl (call_free_children n hcf m hm)
  · simp only [children, List.mem_cons, List.mem_map] at hm
    rcases hm with rfl | ⟨e, he, rfl⟩
    · exact Or.inl rfl
    · exact Or.inl (expr_list_call_free_mem args hargs e he)

/-- Every node the breadth-first walk ever yields from a queue of good nodes
is itself good. -/
theorem walk_good (L : List String) (q : List PyNode) (hq : ∀ n ∈ q, good_node L n) :
    ∀ m ∈ walk q, good_node L m := by
  match q with
  | [] =>
    rw [walk_nil]
    intro m hm
    cases hm
  | n :: rest =>
    rw [walk_cons]
    intro m hm
    rcases List.mem_cons.mp hm with rfl | hm'
    · exact hq m (List.mem_cons_self _ _)
    · refine walk_good L (rest ++ children n) ?_ m hm'
      intro n' hn'
      rcases List.mem_append.mp hn' with h' | h'
      · exact hq n' (List.mem_cons_of_mem _ h')
      · exact good_node_children L n (hq n (List.mem_cons_self _ _)) n' h'
termination_by nodes_count q
decreasing_by
  have := children_count_lt n
  rw [nodes_count_append, nodes_count_cons]
  omega

/-- A list of good nodes emits no dependency once `local_functions` covers
`L`: call-free nodes are never `Call` nodes, bare calls find their target in
`local_functions`, and `local_functions` only ever grows. -/
theorem wd_good (L : List String) (l : List PyNode) (L' : List String)
    (hgood : ∀ n ∈ l, good_node L n) (hsub : ∀ c ∈ L, c ∈ L') :
    walk_dependencies l L' = [] := by
  induction l generalizing L' with
  | nil => rfl
  | cons n rest ih =>
    have htail : ∀ n' ∈ rest, good_node L n' :=
      fun n' hn' => hgood n' (List.mem_cons_of_mem _ hn')
    cases n with
    | stmt s =>
      cases s with
      | FunctionDef nm b =>
        simp only [walk_dependencies]
        exact ih _ htail (fun c hc => List.mem_cons_of_mem _ (hsub c hc))
      | ClassDef nm bs b => simp only [walk_dependencies]; exact ih _ htail hsub
      | Expr e => simp only [walk_dependencies]; exact ih _ htail hsub
      | If t b o => simp only [walk_dependencies]; exact ih _ htail hsub
      | Return v => simp only [walk_dependencies]; exact ih _ htail hsub
      | Assign e => simp only [walk_dependencies]; exact ih _ htail hsub
      | Import ns => simp only [walk_dependencies]; exact ih _ htail hsub
      | ImportFrom m ns => simp only [walk_dependencies]; exact ih _ htail hsub
      | Pass => simp only [walk_dependencies]; exact ih _ htail hsub
    | expr e =>
      cases e with
      | Name id => simp only [walk_dependencies]; exact ih _ htail hsub
      | Attribute v a => simp only [walk_dependencies]; exact ih _ htail hsub
      | Constant => simp only [walk_dependencies]; exact ih _ htail hsub
      | Call f fargs =>
        rcases hgood _ (List.mem_cons_self _ _) with hcf | ⟨c, args, heq, hc, hargs⟩
        · rw [node_call_free, expr_call_free] at hcf; cases hcf
        · cases heq
          simp only [walk_dependencies, hsub c hc, if_true]
          exact ih _ htail hsub

/-- Every queued child of a body of `direct_shadowed_stmt` statements is a
good node. -/
theorem direct_shadowed_children (body : List PyStmt) (D : List String)
    (h : ∀ s ∈ body, direct_shadowed_stmt D s = true) :
    ∀ n ∈ children_of_list (body.map .stmt), good_node D n := by
  intro n hn
  rw [children_of_list, List.mem_flatten] at hn
  obtain ⟨l, hl, hnl⟩ := hn
  rw [List.map_map, List.mem_map] at hl
  obtain ⟨s, hs, hleq⟩ := hl
  subst hleq
  have hsd := h s hs
  cases s with
  | Expr e =>
    cases e with
    | Name id =>
      exact Or.inl (call_free_children (.stmt (.Expr (.Name id)))
        (by simpa [node_call_free, stmt_call_free, direct_shadowed_stmt] using hsd) n hnl)
    | Attribute v a =>
      exact Or.inl (call_free_children (.stmt (.Expr (.Attribute v a)))
        (by simpa [node_call_free, stmt_call_free, direct_shadowed_stmt] using hsd) n hnl)
    | Constant =>
      exact Or.inl (call_free_children (.stmt (.Expr .Constant))
        (by simpa [node_call_free, stmt_call_free, direct_shadowed_stmt] using hsd) n hnl)
    | Call f fargs =>
      cases f with
      | Name c =>
        have hred : direct_shadowed_stmt D (.Expr ((PyExpr.Name c).Call fargs))
            = (D.contains c && expr_list_call_free fargs) := rfl
        rw [hred, Bool.and_eq_true] at hsd
        simp only [Function.comp_apply, children, List.mem_singleton] at hnl
        subst hnl
        exact Or.inr ⟨c, fargs, rfl, by simpa using hsd.1, hsd.2⟩
      | Attribute v a =>
        have hred : direct_shadowed_stmt D (.Expr ((v.Attribute a).Call fargs)) = false := rfl
        rw [hred] at hsd
        cases hsd
      | Call g gargs =>
        have hred : direct_shadowed_stmt D (.Expr ((g.Call gargs).Call fargs)) = false := rfl
        rw [hred] at hsd
        cases hsd
      | Constant =>
        have hred : direct_shadowed_stmt D (.Expr (PyExpr.Constant.Call fargs)) = false := rfl
        rw [hred] at hsd
        cases hsd
  | FunctionDef nm b =>
    refine Or.inl (call_free_children (.stmt (.FunctionDef nm b)) ?_ n hnl)
    simpa [node_call_free, direct_shadowed_stmt] using hsd
  | ClassDef nm bs b =>
    refine Or.inl (call_free_children (.stmt (.ClassDef nm bs b)) ?_ n hnl)
    simpa [node_call_free, direct_shadowed_stmt] using hsd
  | If t b o =>
    refine Or.inl (call_free_children (.stmt (.If t b o)) ?_ n hnl)
    simpa [node_call_free, direct_shadowed_stmt] using hsd
  | Return v =>
    refine Or.inl (call_free_children (.stmt (.Return v)) ?_ n hnl)
    simpa [node_call_free, direct_shadowed_stmt] using hsd
  | Assign e =>
    refine Or.inl (call_free_children (.stmt (.Assign e)) ?_ n hnl)
    simpa [node_call_free, direct_shadowed_stmt] using hsd
  | Import ns =>
    refine Or.inl (call_free_children (.stmt (.Import ns)) ?_ n hnl)
    simpa [node_call_free, direct_shadowed_stmt] using hsd
  | ImportFrom m' ns =>
    refine Or.inl (call_free_children (.stmt (.ImportFrom m' ns)) ?_ n hnl)
    simpa [node_call_free, direct_shadowed_stmt] using hsd
  | Pass =>
    refine Or.inl (call_free_children (.stmt .Pass) ?_ n hnl)
    simpa [node_call_free, direct_shadowed_stmt] using hsd

/-- C9, amended: a parsed function whose call expressions all occur as
direct call statements of its body, each targeting by bare name a function
defined by a direct statement of that same body, with call-free arguments
and no other call expression anywhere in the body, has an empty dependency
list - wherever in the body the definitions and the calls appear relative
to each other, because the breadth-first walk registers every direct
definition (queue depth 1) before it inspects any call node (depth 2 or
below).  A call sitting at a shallower breadth-first depth than a nested
shadowing definition does produce a dependency: see the counterexample. -/
theorem C9_theorem (fname : String) (body : List PyStmt)
    (h : body.all (direct_shadowed_stmt (direct_def_names body)) = true) :
    (parse_function fname body).dependencies = [] := by
  have hAll : ∀ s ∈ body, direct_shadowed_stmt (direct_def_names body) s = true :=
    fun s hs => List.all_eq_true.mp h s hs
  have hw1 : walk [.stmt (.FunctionDef fname body)]
      = .stmt (.FunctionDef fname body) :: walk (body.map .stmt) := by
    rw [walk_cons]
    simp [children]
  have hw2 := walk_eq_self_append (body.map PyNode.stmt)
  show walk_dependencies (walk [.stmt (.FunctionDef fname body)]) [] = []
  rw [hw1, hw2]
  simp only [walk_dependencies]
  rw [wd_append, wd_stmt_nodes, List.nil_append]
  refine wd_good (direct_def_names body) _ _ ?_ ?_
  · exact walk_good _ _ (direct_shadowed_children body (direct_def_names body) hAll)
  · exact fun c hc => direct_defs_in_locals body [fname] c hc

/-- Witness for C9: a body whose direct statements are a call `g(1)`-style
statement placed before the definition it targets, a local definition whose
body is a `return`, and a trailing `return`, parses to an empty dependency
list. -/
theorem C9_witness : (parse_function "f" c9_general_body).dependencies = [] :=
  C9_theorem "f" c9_general_body (by decide)
